import Mathlib

/-!
Verification of the nd-wfc Wave Function Collapse solver core.

This file gives a shallow embedding of the engine found in the repository:
the bit-domain wave (`wfc_wave.hpp`), the propagation queue
(`wfc_queue.hpp`), the scoped stack allocator (`wfc_allocator.hpp`), the
constrainer (`wfc_constrainer.hpp`), the random selectors (`wfc_random.hpp`)
and the free-function solver (`Run` / `RunLoop` / `Branch` / `Propagate` in
`wfc.hpp`).  Machine integers are modelled as `Nat` with explicit reduction
modulo `2^w`; the C++ `int` arithmetic that the source performs on literal
`1` is modelled explicitly where it matters.  The mutually recursive solver
functions are given a structural fuel argument; `none` marks fuel
exhaustion, which is a modelling artefact and carries no claim content.
-/

namespace WFC

/-- Structural-fuel helper for `popcount` (the fuel makes the definition
reduce inside the kernel; `popcount` supplies sufficient fuel). -/
def popcountAux : Nat → Nat → Nat
  | 0, _ => 0
  | fuel + 1, n => if n = 0 then 0 else n % 2 + popcountAux fuel (n / 2)

/-- Number of set bits of a natural number; models `std::popcount` on the
stored (width-bounded) mask value. -/
def popcount (n : Nat) : Nat := popcountAux n n

/-- Structural-fuel helper for `ctz`. -/
def ctzAux : Nat → Nat → Nat
  | 0, _ => 0
  | fuel + 1, n =>
    if n = 0 then 0
    else if n % 2 = 1 then 0 else ctzAux fuel (n / 2) + 1

/-- Index of the lowest set bit; models `std::countr_zero` on a nonzero
mask (the solver only applies it to collapsed, hence nonzero, domains). -/
def ctz (n : Nat) : Nat := ctzAux n n

theorem popcountAux_congr :
    ∀ f₁ f₂ n, n ≤ f₁ → n ≤ f₂ → popcountAux f₁ n = popcountAux f₂ n := by
  intro f₁
  induction f₁ with
  | zero =>
    intro f₂ n h1 _
    have : n = 0 := by omega
    subst this
    cases f₂ <;> simp [popcountAux]
  | succ f₁ ih =>
    intro f₂ n h1 h2
    cases f₂ with
    | zero =>
      have : n = 0 := by omega
      subst this
      simp [popcountAux]
    | succ f₂ =>
      simp only [popcountAux]
      by_cases hn : n = 0
      · simp [hn]
      · rw [if_neg hn, if_neg hn]
        have hlt : n / 2 < n := Nat.div_lt_self (Nat.pos_of_ne_zero hn) (by omega)
        rw [ih f₂ (n / 2) (by omega) (by omega)]

/-- The recurrence the C++ loop satisfies. -/
theorem popcount_rec (n : Nat) :
    popcount n = if n = 0 then 0 else n % 2 + popcount (n / 2) := by
  by_cases hn : n = 0
  · simp [hn, popcount, popcountAux]
  · rw [if_neg hn]
    show popcountAux n n = _
    cases n with
    | zero => exact absurd rfl hn
    | succ m =>
      simp only [popcountAux]
      rw [if_neg hn]
      have hlt : (m + 1) / 2 < m + 1 := Nat.div_lt_self (by omega) (by omega)
      rw [popcountAux_congr m ((m + 1) / 2) ((m + 1) / 2) (by omega) (by omega)]
      rfl

theorem ctzAux_congr :
    ∀ f₁ f₂ n, n ≤ f₁ → n ≤ f₂ → ctzAux f₁ n = ctzAux f₂ n := by
  intro f₁
  induction f₁ with
  | zero =>
    intro f₂ n h1 _
    have : n = 0 := by omega
    subst this
    cases f₂ <;> simp [ctzAux]
  | succ f₁ ih =>
    intro f₂ n h1 h2
    cases f₂ with
    | zero =>
      have : n = 0 := by omega
      subst this
      simp [ctzAux]
    | succ f₂ =>
      simp only [ctzAux]
      by_cases hn : n = 0
      · simp [hn]
      · rw [if_neg hn, if_neg hn]
        by_cases hodd : n % 2 = 1
        · rw [if_pos hodd, if_pos hodd]
        · rw [if_neg hodd, if_neg hodd]
          have hlt : n / 2 < n := Nat.div_lt_self (Nat.pos_of_ne_zero hn) (by omega)
          rw [ih f₂ (n / 2) (by omega) (by omega)]

theorem ctz_rec (n : Nat) :
    ctz n = if n = 0 then 0 else if n % 2 = 1 then 0 else ctz (n / 2) + 1 := by
  by_cases hn : n = 0
  · simp [hn, ctz, ctzAux]
  · rw [if_neg hn]
    show ctzAux n n = _
    cases n with
    | zero => exact absurd rfl hn
    | succ m =>
      simp only [ctzAux]
      rw [if_neg hn]
      by_cases hodd : (m + 1) % 2 = 1
      · rw [if_pos hodd, if_pos hodd]
      · rw [if_neg hodd, if_neg hodd]
        have hlt : (m + 1) / 2 < m + 1 := Nat.div_lt_self (by omega) (by omega)
        rw [ctzAux_congr m ((m + 1) / 2) ((m + 1) / 2) (by omega) (by omega)]
        rfl

theorem popcount_zero : popcount 0 = 0 := rfl

theorem popcount_eq_zero {n : Nat} (h : popcount n = 0) : n = 0 := by
  induction n using Nat.strong_induction_on with
  | _ n ih =>
    by_contra hn
    rw [popcount_rec, if_neg hn] at h
    rcases Nat.eq_zero_or_pos (n % 2) with h2 | h2
    · rw [h2, Nat.zero_add] at h
      have hlt : n / 2 < n := Nat.div_lt_self (Nat.pos_of_ne_zero hn) (by omega)
      have h0 := ih (n / 2) hlt h
      omega
    · omega

theorem popcount_pos {n : Nat} (h : n ≠ 0) : 0 < popcount n := by
  rcases Nat.eq_zero_or_pos (popcount n) with h0 | h0
  · exact absurd (popcount_eq_zero h0) h
  · exact h0

/-- `popcount (2^k) = 1`. -/
theorem popcount_two_pow (k : Nat) : popcount (2 ^ k) = 1 := by
  induction k with
  | zero => rfl
  | succ k ih =>
    rw [popcount_rec]
    have hpos : 0 < 2 ^ (k + 1) := Nat.pos_pow_of_pos _ (by omega)
    rw [if_neg (by omega)]
    have h2 : 2 ^ (k + 1) % 2 = 0 := by
      simp [Nat.pow_succ, Nat.mul_mod_left]
    have h3 : 2 ^ (k + 1) / 2 = 2 ^ k := by
      rw [Nat.pow_succ, Nat.mul_div_cancel]; omega
    rw [h2, h3, ih]

/-- `ctz (2^k) = k`. -/
theorem ctz_two_pow (k : Nat) : ctz (2 ^ k) = k := by
  induction k with
  | zero => rfl
  | succ k ih =>
    rw [ctz_rec]
    have hpos : 0 < 2 ^ (k + 1) := Nat.pos_pow_of_pos _ (by omega)
    rw [if_neg (by omega)]
    have h2 : 2 ^ (k + 1) % 2 = 0 := by simp [Nat.pow_succ, Nat.mul_mod_left]
    have h3 : 2 ^ (k + 1) / 2 = 2 ^ k := by
      rw [Nat.pow_succ, Nat.mul_div_cancel]; omega
    rw [if_neg (by omega), h3, ih]

/-- A mask of popcount 1 is the power of two given by its `ctz`. -/
theorem popcount_one_eq_two_pow_ctz {n : Nat} (h : popcount n = 1) :
    n = 2 ^ ctz n := by
  induction n using Nat.strong_induction_on with
  | _ n ih =>
    have hn : n ≠ 0 := by
      intro h0; rw [h0, popcount_zero] at h; omega
    rw [popcount_rec, if_neg hn] at h
    rcases Nat.eq_zero_or_pos (n % 2) with h2 | h2
    · -- even case: popcount (n/2) = 1
      have hh : popcount (n / 2) = 1 := by omega
      have hlt : n / 2 < n := Nat.div_lt_self (Nat.pos_of_ne_zero hn) (by omega)
      have ihh := ih (n / 2) hlt hh
      have hctz : ctz n = ctz (n / 2) + 1 := by
        rw [ctz_rec, if_neg hn, if_neg (by omega)]
      rw [hctz, Nat.pow_succ]
      omega
    · -- odd case: popcount (n/2) = 0, so n = 1
      have hh : popcount (n / 2) = 0 := by omega
      have h0 := popcount_eq_zero hh
      have hn1 : n = 1 := by omega
      subst hn1
      decide

/-! ### The C++ `int` computation of shifted masks

`Wave::Wave` initialises every domain with `m_data[i] = (1 << variableAmount) - 1`
and `CollapseCell` / `Branch` collapse with `1 << value` and `~(1 << value)`.
The literal `1` has type `int` (32 bits).  For shift counts at or above 31
the C++ expression overflows `int` (undefined behaviour); we model the
behaviour produced on the mainstream x86-64 / AArch64 targets: the shift
count is taken modulo 32 and the result wraps in two's complement.  The
theorem for claim C1 additionally shows that *no* 32-bit `int` value could
yield the intended full mask, so the finding is independent of this
modelling choice. -/

/-- Value of the C++ `int` expression `1 << s` (x86-64 behaviour: shift
count mod 32, two's-complement wrap). -/
def cppShl1 (s : Nat) : Int :=
  let r : Nat := 2 ^ (s % 32) % 2 ^ 32
  if r < 2 ^ 31 then (r : Int) else (r : Int) - 2 ^ 32

/-- Conversion of a C++ `int` value to an unsigned integer of width `w`
(reduction modulo `2^w`). -/
def intToWidth (w : Nat) (x : Int) : Nat := (x % (2 ^ w : Int)).toNat

/-- The domain value stored by `Wave::Wave`: `(1 << variableAmount) - 1`
converted to the storage type of width `w`. -/
def waveInitMask (w v : Nat) : Nat := intToWidth w (cppShl1 v - 1)

/-- `Wave::Wave(size, variableAmount, allocator)`: `size` domains, each
initialised to `(1 << variableAmount) - 1`. -/
def waveInit (size w v : Nat) : List Nat := List.replicate size (waveInitMask w v)

/-- The mask the engine uses for `1 << value` at storage width `w`
(`Wave::Collapse(cellId, 1 << value)` in `CollapseCell`). -/
def shl1W (w v : Nat) : Nat := intToWidth w (cppShl1 v)

/-- The mask the engine uses for `~(1 << value)` at storage width `w`
(`wave.Collapse(minEntropyCell, ~(1 << selectedValue))` in `Branch`). -/
def complShl1W (w v : Nat) : Nat := intToWidth w (-(cppShl1 v) - 1)

theorem shl1W_small {w v : Nat} (hv : v < 31) (hw : v < w) :
    shl1W w v = 2 ^ v := by
  unfold shl1W cppShl1 intToWidth
  have h1 : v % 32 = v := Nat.mod_eq_of_lt (by omega)
  rw [h1]
  have h2 : 2 ^ v < 2 ^ 31 := Nat.pow_lt_pow_right (by omega) hv
  have h3 : (2 : Nat) ^ v % 2 ^ 32 = 2 ^ v := Nat.mod_eq_of_lt (by
    calc 2 ^ v < 2 ^ 31 := h2
    _ < 2 ^ 32 := by norm_num)
  simp only [h3]
  rw [if_pos (by exact_mod_cast h2)]
  have h4 : (2 : Int) ^ v < 2 ^ w := by
    have : (2 : Nat) ^ v < 2 ^ w := Nat.pow_lt_pow_right (by omega) hw
    exact_mod_cast this
  have h5 : ((2 : Nat) ^ v : Int) % (2 ^ w : Int) = (2 : Nat) ^ v := by
    apply Int.emod_eq_of_lt
    · positivity
    · push_cast; exact h4
  push_cast at h5 ⊢
  rw [h5]
  exact_mod_cast rfl

theorem complShl1W_small {w v : Nat} (hv : v < 31) (hw : v < w) :
    complShl1W w v = 2 ^ w - 1 - 2 ^ v := by
  unfold complShl1W cppShl1 intToWidth
  have h1 : v % 32 = v := Nat.mod_eq_of_lt (by omega)
  rw [h1]
  have h2 : (2 : Nat) ^ v < 2 ^ 31 := Nat.pow_lt_pow_right (by omega) hv
  have h3 : (2 : Nat) ^ v % 2 ^ 32 = 2 ^ v := Nat.mod_eq_of_lt (by
    calc 2 ^ v < 2 ^ 31 := h2
    _ < 2 ^ 32 := by norm_num)
  simp only [h3]
  rw [if_pos (by exact_mod_cast h2)]
  have hvw : (2 : Nat) ^ v < 2 ^ w := Nat.pow_lt_pow_right (by omega) hw
  have hcv : (((2 : Nat) ^ v : Nat) : Int) = (2 : Int) ^ v := by push_cast; ring
  have hcw : (((2 : Nat) ^ w : Nat) : Int) = (2 : Int) ^ w := by push_cast; ring
  have hvwI : (2 : Int) ^ v < (2 : Int) ^ w := by
    rw [← hcv, ← hcw]; exact_mod_cast hvw
  have hvpos : (0 : Int) < (2 : Int) ^ v := by positivity
  have key : (-(((2 : Nat) ^ v : Nat) : Int) - 1) % (2 : Int) ^ w
      = (2 : Int) ^ w - (2 : Int) ^ v - 1 := by
    rw [hcv]
    have hstep := @Int.add_mul_emod_self_left (-(2 : Int) ^ v - 1) ((2 : Int) ^ w) 1
    rw [mul_one] at hstep
    rw [← hstep, Int.emod_eq_of_lt (by omega) (by omega)]
    ring
  rw [key]
  omega

/-! ### Wave (`wfc_wave.hpp`)

`Wave` stores one mask per cell.  We model it as a `List Nat`; out-of-range
accesses default to `0` (real executions stay in range). -/

/-- A wave: one bit domain per cell. -/
abbrev Wave := List Nat

/-- `Wave::Collapse(index, mask)`: `m_data[index] &= mask`. -/
def Wave.CollapseW (w : Wave) (index : Nat) (mask : Nat) : Wave :=
  w.set index (w.getD index 0 &&& mask)

/-- `Wave::Enable(index, mask)`: `m_data[index] |= mask`. -/
def Wave.EnableW (w : Wave) (index : Nat) (mask : Nat) : Wave :=
  w.set index (w.getD index 0 ||| mask)

/-- `Wave::Entropy(index)`: `popcount(m_data[index])`. -/
def Wave.EntropyW (w : Wave) (index : Nat) : Nat := popcount (w.getD index 0)

/-- `Wave::IsCollapsed(index)`: `Entropy(index) == 1`. -/
def Wave.IsCollapsedW (w : Wave) (index : Nat) : Bool :=
  Wave.EntropyW w index == 1

/-- `Wave::IsContradicted(index)`: `m_data[index] == 0`. -/
def Wave.IsContradictedW (w : Wave) (index : Nat) : Bool :=
  w.getD index 0 == 0

/-- `Wave::IsFullyCollapsed()`: every cell has popcount 1. -/
def Wave.IsFullyCollapsedW (w : Wave) : Bool :=
  w.all (fun m => popcount m == 1)

/-- `Wave::HasContradiction()`: some cell's mask is 0. -/
def Wave.HasContradictionW (w : Wave) : Bool :=
  w.any (fun m => m == 0)

/-- `Wave::GetVariableID(index)`: `countr_zero(m_data[index])`. -/
def Wave.GetVariableID (w : Wave) (index : Nat) : Nat := ctz (w.getD index 0)

/-- `Wave::GetMask(index)`. -/
def Wave.GetMaskW (w : Wave) (index : Nat) : Nat := w.getD index 0

/-! ### Propagation queue (`wfc_queue.hpp`)

An array of cell ids plus cursors `front ≤ back`.  `push` stores at
`m_container[m_back++]`; the debug build asserts `!full()` and
`!has(value)` first.  We model the release build guarded by the `!full()`
precondition (a push on a full queue is left as a no-op; the C++ would
write out of bounds, which no modelled execution does). -/

structure WFCQueue where
  data : List Nat
  front : Nat
  back : Nat
deriving DecidableEq, Repr

/-- `WFCQueue::empty()`: `m_front == m_back`. -/
def WFCQueue.emptyQ (q : WFCQueue) : Bool := q.front == q.back

/-- `WFCQueue::push(value)`: `m_container[m_back++] = value`. -/
def WFCQueue.push (q : WFCQueue) (value : Nat) : WFCQueue :=
  if q.back < q.data.length then
    ⟨q.data.set q.back value, q.front, q.back + 1⟩
  else q

/-- `WFCQueue::pop()`: returns `m_container[m_front++]`. -/
def WFCQueue.pop (q : WFCQueue) : Nat × WFCQueue :=
  (q.data.getD q.front 0, ⟨q.data, q.front + 1, q.back⟩)

/-! ### Stack allocator (`wfc_allocator.hpp`) -/

structure Pool where
  size : Nat
  used : Nat
deriving DecidableEq, Repr

structure Arena where
  pools : List Pool
  cur : Nat
deriving DecidableEq, Repr

/-- `WFCStackAllocator::alignUp(value)`: round up to a multiple of 8. -/
def alignUp (value : Nat) : Nat := (value + 8 - 1) / 8 * 8

/-- The freshly constructed allocator: a zero-sized first pool, one 1 MiB
pool, current pool index 1. -/
def Arena.init : Arena := ⟨[⟨0, 0⟩, ⟨1048576, 0⟩], 1⟩

/-- Scan for the first pool at or after `i` with enough capacity
(the loop in `WFCStackAllocator::allocate`). -/
def scanPools (pools : List Pool) (sz : Nat) : Nat → Nat → Option Nat
  | 0, _ => none
  | fuel + 1, i =>
    if i < pools.length then
      if sz ≤ (pools.getD i ⟨0, 0⟩).size - (pools.getD i ⟨0, 0⟩).used then
        some i
      else scanPools pools sz fuel (i + 1)
    else none

/-- `WFCStackAllocator::allocate(size)` (the returned pointer is not
modelled, only the pool bookkeeping). -/
def Arena.allocate (a : Arena) (size : Nat) : Arena :=
  let sz := alignUp size
  match scanPools a.pools sz a.pools.length a.cur with
  | some i =>
    ⟨a.pools.set i ⟨(a.pools.getD i ⟨0, 0⟩).size, (a.pools.getD i ⟨0, 0⟩).used + sz⟩, i⟩
  | none =>
    let last := a.pools.getD (a.pools.length - 1) ⟨0, 0⟩
    ⟨a.pools ++ [⟨max (last.size * 2) (sz * 2), sz⟩], a.pools.length⟩

/-- `WFCStackAllocator::StackFrame`: the saved `(pool index, used)` pair. -/
structure StackFrame where
  poolIndex : Nat
  poolUsed : Nat
deriving DecidableEq, Repr

/-- `WFCStackAllocator::createFrame()`. -/
def Arena.createFrame (a : Arena) : StackFrame :=
  ⟨a.cur, (a.pools.getD a.cur ⟨0, 0⟩).used⟩

/-- Helper applying the `StackFrame` destructor's per-pool effect: pools
above the frame's pool index get `used = 0`, the frame's pool gets the
saved `used`, lower pools are untouched.  `i` is the index of the head. -/
def restorePools (f : StackFrame) : Nat → List Pool → List Pool
  | _, [] => []
  | i, p :: ps =>
    (if f.poolIndex < i then (⟨p.size, 0⟩ : Pool)
     else if i = f.poolIndex then ⟨p.size, f.poolUsed⟩
     else p) :: restorePools f (i + 1) ps

/-- `WFCStackAllocator::StackFrame::~StackFrame()`. -/
def StackFrame.restore (f : StackFrame) (a : Arena) : Arena :=
  ⟨restorePools f 0 a.pools, f.poolIndex⟩

/-! ### Constrainer (`wfc_constrainer.hpp`)

Rule functions mutate the wave only through the constrainer, whose three
operations are `Exclude`, `Only` and `Include`.  Each operation carries the
target cell and the values mask (`BitContainerT::GetMask(indices)` in the
template overloads, `1 << value.InternalIndex` in the runtime overloads);
`Exclude` complements that mask at the storage width.  A rule invocation is
therefore modelled as the list of constrainer operations it performs. -/

inductive COp where
  /-- `Constrainer::Exclude`: `ApplyMask(cellId, ~mask)`. -/
  | excludeOp (cell : Nat) (mask : Nat)
  /-- `Constrainer::Only`: `ApplyMask(cellId, mask)`. -/
  | onlyOp (cell : Nat) (mask : Nat)
  /-- `Constrainer::Include`: `if (IsCollapsed(cellId)) return; Enable(cellId, mask)`. -/
  | includeOp (cell : Nat) (mask : Nat)
deriving DecidableEq, Repr

/-- Width-`w` complement of a values mask (`~mask` on the storage type). -/
def complW (w mask : Nat) : Nat := (2 ^ w - 1) ^^^ mask

/-- `Constrainer::ApplyMask(cellId, mask)`: collapse and push on a
not-collapsed → collapsed transition. -/
def ApplyMask (wv : Wave) (q : WFCQueue) (cell : Nat) (mask : Nat) :
    Wave × WFCQueue :=
  let wasCollapsed := wv.IsCollapsedW cell
  let wv' := wv.CollapseW cell mask
  let collapsed := wv'.IsCollapsedW cell
  if !wasCollapsed && collapsed then (wv', q.push cell) else (wv', q)

/-- Apply one constrainer operation. -/
def applyCOp (w : Nat) (s : Wave × WFCQueue) : COp → Wave × WFCQueue
  | .excludeOp cell mask => ApplyMask s.1 s.2 cell (complW w mask)
  | .onlyOp cell mask => ApplyMask s.1 s.2 cell mask
  | .includeOp cell mask =>
    if s.1.IsCollapsedW cell then s
    else (s.1.EnableW cell mask, s.2)

/-- Apply a rule invocation's sequence of constrainer operations. -/
def applyOps (w : Nat) (s : Wave × WFCQueue) (ops : List COp) : Wave × WFCQueue :=
  ops.foldl (applyCOp w) s

/-! ### Random selectors (`wfc_random.hpp`) -/

/-- `DefaultRandomSelector::rng(max)`: updates
`m_seed = m_seed * 1103515245 + 12345` (32-bit wrap) and returns
`m_seed % max`.  Result: `(picked index, new seed)`. -/
def rngStep (seed max : Nat) : Nat × Nat :=
  let seed' := (seed * 1103515245 + 12345) % 2 ^ 32
  (seed' % max, seed')

/-- `AdvancedRandomSelector::rng(max)` builds
`std::uniform_int_distribution<uint32_t> dist(0, max)` — a distribution
over the *closed* range `[0, max]` — and returns `dist(m_rng)`.  We model
the standard-mandated range by the canonical reduction of the underlying
`mt19937` draw: `draw % (max + 1)`. -/
def advancedRng (draw max : Nat) : Nat := draw % (max + 1)

/-! ### Solver configuration and state (`wfc.hpp`)

The free-function solver is parameterised by the world type, the variable
id map and the constrainer-function map; all are compile-time data, so the
embedding packages them as a configuration record.  `rules k world cell
value` is the list of constrainer operations performed by
`ConstrainerFunctionMapT::GetFunction(k)(world, cell, value, constrainer)`.
The modelled configuration has no initial-state rule and empty callbacks
(`Callbacks<>`), matching the solver paths the claims are about. -/

structure Cfg where
  /-- storage width of the wave's `ElementT`. -/
  W : Nat
  /-- `VariableIDMapT::size()`. -/
  V : Nat
  /-- `VariableIDMapT::GetValue` as a list indexed by variable id. -/
  idMap : List Nat
  /-- the constrainer-function map: variable index ↦ rule behaviour. -/
  rules : Nat → List Nat → Nat → Nat → List COp

/-- `SolverState`: the world reference, propagation queue, random
selector, stack allocator and iteration counter. -/
structure SState where
  world : List Nat
  queue : WFCQueue
  seed : Nat
  arena : Arena
  iterations : Nat
deriving DecidableEq, Repr

/-- `SolverState(world, seed)`: queue sized to the world, default
selector seeded with `seed`, fresh allocator, zero iterations. -/
def initState (world : List Nat) (seed : Nat) : SState :=
  ⟨world, ⟨List.replicate world.length 0, 0, 0⟩, seed % 2 ^ 32, Arena.init, 0⟩

/-- `MaxIterations` in the free-function `RunLoop`: `1024 * 16`. -/
def MaxIterations : Nat := 1024 * 16

/-! ### Propagation (`detail::Propagate`)

The fuel argument only makes the loop structurally recursive; one unit is
consumed per pop, and the queue's cursors bound the number of pops, so
`queue.data.length + 1` units always suffice (the callers supply that). -/

/-- `detail::Propagate(state, wave)`. -/
def Propagate (cfg : Cfg) : Nat → SState → Wave → Option (Bool × SState × Wave)
  | 0, _, _ => none
  | fuel + 1, s, w =>
    if s.queue.emptyQ then some (true, s, w)
    else
      let popped := s.queue.pop
      let cellId := popped.1
      let s₁ : SState := { s with queue := popped.2 }
      if w.IsContradictedW cellId then some (false, s₁, w)
      else
        let variableID := w.GetVariableID cellId
        let ops := cfg.rules variableID s₁.world cellId (cfg.idMap.getD variableID 0)
        let next := applyOps cfg.W (w, s₁.queue) ops
        Propagate cfg fuel { s₁ with queue := next.2 } next.1

/-! ### Branching (`Branch`) -/

/-- The minimum-entropy scan: ascending cell ids, keep the first cell whose
entropy is `> 1` and strictly below the best so far (initial best:
`size_t(-1)`; the sentinel cell id `WorldSizeT(-1)` is modelled as
`none`). -/
def scanMinAux (w : Wave) : List Nat → Option Nat × Nat → Option Nat × Nat
  | [], acc => acc
  | i :: rest, acc =>
    let e := w.EntropyW i
    if 1 < e ∧ e < acc.2 then scanMinAux w rest (some i, e)
    else scanMinAux w rest acc

/-- The result cell of `Branch`'s minimum-entropy scan. -/
def findMinEntropyCell (w : Wave) : Option Nat :=
  (scanMinAux w (List.range w.length) (none, 2 ^ 64 - 1)).1

/-- The `possibleValues` filling loop: extract the lowest set bit `count`
times (`countr_zero` then `mask &= mask - 1`). -/
def extractBits : Nat → Nat → List Nat
  | 0, _ => []
  | count + 1, mask => ctz mask :: extractBits count (mask &&& (mask - 1))

/-- `std::swap(possibleValues[i], possibleValues[j])`. -/
def swapAt (l : List Nat) (i j : Nat) : List Nat :=
  (l.set i (l.getD j 0)).set j (l.getD i 0)

/-- The state changes of one branch trial before the recursive `RunLoop`:
the selector was stepped (`rng(availableValues)`), `auto newWave = wave`
allocated the clone from the arena, and the chosen cell was pushed
(`m_propagationQueue.push(minEntropyCell)`).  The stack frame and queue
branch point were captured from `s` before any of these. -/
def trialState (cfg : Cfg) (cell avail : Nat) (s : SState) (w : Wave) : SState :=
  { s with
    seed := (rngStep s.seed avail).2,
    arena := s.arena.allocate (w.length * (cfg.W / 8)),
    queue := s.queue.push cell }

/-- `CollapseCell(state, newWave, minEntropyCell, selectedValue)`:
`newWave.Collapse(cell, 1 << value)` on the clone. -/
def trialWave (cfg : Cfg) (cell v : Nat) (w : Wave) : Wave :=
  w.CollapseW cell (shl1W cfg.W v)

/-- Destruction of `queueFrame` and `stackFrame` at the end of a trial's
scope (run on both the success and the failure path): the queue's
`(front, back)` and the arena frame are restored to the values captured
from `s` at the branch point; everything else (world, selector seed,
iteration counter, queue contents) keeps the post-trial state `s'`. -/
def restoreFrames (s s' : SState) : SState :=
  { s' with
    queue := ⟨s'.queue.data, s.queue.front, s.queue.back⟩,
    arena := (s.arena.createFrame).restore s'.arena }

/-- `wave.Collapse(minEntropyCell, ~(1 << selectedValue))` after a failed
trial. -/
def removeTried (cfg : Cfg) (cell v : Nat) (w : Wave) : Wave :=
  w.CollapseW cell (complShl1W cfg.W v)

mutual

/-- The free-function `RunLoop(state, wave)`; the `for` loop is unrolled
into recursion, incrementing the shared iteration counter after each
completed body. -/
def RunLoop : Nat → Cfg → SState → Wave → Option (Bool × SState × Wave)
  | 0, _, _, _ => none
  | fuel + 1, cfg, s, w =>
    if s.iterations < MaxIterations then
      match Propagate cfg (s.queue.data.length + 1) s w with
      | none => none
      | some (false, s₁, w₁) => some (false, s₁, w₁)
      | some (true, s₁, w₁) =>
        if w₁.HasContradictionW then some (false, s₁, w₁)
        else if w₁.IsFullyCollapsedW then some (true, s₁, w₁)
        else
          match Branch fuel cfg s₁ w₁ with
          | none => none
          | some (true, s₂, w₂) => some (true, s₂, w₂)
          | some (false, s₂, w₂) =>
            RunLoop fuel cfg { s₂ with iterations := s₂.iterations + 1 } w₂
    else some (false, s, w)

/-- The free-function `Branch(state, wave)`: minimum-entropy scan, the
`possibleValues` array (length `VariableIDMapT::size()`, zero-filled tail)
and the value-trial loop. -/
def Branch : Nat → Cfg → SState → Wave → Option (Bool × SState × Wave)
  | 0, _, _, _ => none
  | fuel + 1, cfg, s, w =>
    match findMinEntropyCell w with
    | none => some (false, s, w)
    | some minEntropyCell =>
      -- `availableValues` is `w.EntropyW minEntropyCell` and `possibleValues`
      -- the extracted-bit array with zero-filled tail, written inline below.
      match BranchLoop fuel cfg minEntropyCell
          (extractBits (w.EntropyW minEntropyCell) (w.GetMaskW minEntropyCell)
            ++ List.replicate (cfg.V - w.EntropyW minEntropyCell) 0)
          (w.EntropyW minEntropyCell) s w with
      | none => none
      | some (r, s', w', _) => some (r, s', w')

/-- The `while (availableValues)` loop of `Branch`.  The extra `List Nat`
in the result records the value indices tried, in order (observational
only; nothing downstream depends on it). -/
def BranchLoop : Nat → Cfg → Nat → List Nat → Nat → SState → Wave →
    Option (Bool × SState × Wave × List Nat)
  | 0, _, _, _, _, _, _ => none
  | fuel + 1, cfg, cell, pvals, avail, s, w =>
    if avail = 0 then some (false, s, w, [])
    else
      -- `randomIndex` is `(rngStep s.seed avail).1`, `selectedValue` is
      -- `pvals.getD randomIndex 0`, both written inline below.
      match RunLoop fuel cfg (trialState cfg cell avail s w)
          (trialWave cfg cell (pvals.getD ((rngStep s.seed avail).1) 0) w) with
      | none => none
      | some (true, s', w') =>
        some (true, restoreFrames s s', w', [pvals.getD ((rngStep s.seed avail).1) 0])
      | some (false, s', _) =>
        match BranchLoop fuel cfg cell
            (swapAt pvals ((rngStep s.seed avail).1) (avail - 1)) (avail - 1)
            (restoreFrames s s')
            (removeTried cfg cell (pvals.getD ((rngStep s.seed avail).1) 0) w) with
        | none => none
        | some (r, s'', w'', tried) =>
          some (r, s'', w'', pvals.getD ((rngStep s.seed avail).1) 0 :: tried)

end

/-- `detail::PopulateWorld`'s loop body for cell `i`: write the collapsed
value, leave every other cell's stored value alone. -/
def populateStep (cfg : Cfg) (w : Wave) (world : List Nat) (i : Nat) : List Nat :=
  if w.IsCollapsedW i then world.set i (cfg.idMap.getD (w.GetVariableID i) 0)
  else world

/-- `detail::PopulateWorld(state, wave)`. -/
def PopulateWorld (cfg : Cfg) (s : SState) (w : Wave) : SState :=
  { s with world := (List.range w.length).foldl (populateStep cfg w) s.world }

/-- One cell of `detail::PropogateInitialValues`: the first id-map value
equal to the world's stored value collapses the cell and pushes it. -/
def seedCell (cfg : Cfg) (sw : SState × Wave) (i : Nat) : SState × Wave :=
  match (List.range cfg.V).find?
      (fun j => sw.1.world.getD i 0 == cfg.idMap.getD j 0) with
  | some j =>
    ({ sw.1 with queue := sw.1.queue.push i }, sw.2.CollapseW i (shl1W cfg.W j))
  | none => sw

/-- `detail::PropogateInitialValues(state, wave)`. -/
def PropogateInitialValues (cfg : Cfg) (s : SState) (w : Wave) : SState × Wave :=
  (List.range w.length).foldl (seedCell cfg) (s, w)

/-- The free-function `Run<ConfigT>(state)` preceded by the construction
of `SolverState{world, seed}` (the overload `Run(world, seed)`), for a
configuration without initial-state rule.  The wave is sized by the
world's compile-time size.  Returns the outcome and the final world. -/
def RunModel (cfg : Cfg) (world : List Nat) (seed : Nat) (fuel : Nat) :
    Option (Bool × List Nat) :=
  let s₀ := initState world seed
  let w₀ := waveInit world.length cfg.W cfg.V
  let seeded := PropogateInitialValues cfg s₀ w₀
  match RunLoop fuel cfg seeded.1 seeded.2 with
  | none => none
  | some (true, s₂, w₂) => some (true, (PopulateWorld cfg s₂ w₂).world)
  | some (false, s₂, _) => some (false, s₂.world)

/-! ### List access helpers -/

theorem getD_set_self {l : List Nat} {i : Nat} (a d : Nat) (h : i < l.length) :
    (l.set i a).getD i d = a := by
  induction l generalizing i with
  | nil => simp at h
  | cons x xs ih =>
    cases i with
    | zero => rfl
    | succ i => simpa using ih (by simpa using h)

theorem getD_set_ne {l : List Nat} {i j : Nat} (a d : Nat) (h : i ≠ j) :
    (l.set i a).getD j d = l.getD j d := by
  induction l generalizing i j with
  | nil => simp
  | cons x xs ih =>
    cases i with
    | zero =>
      cases j with
      | zero => exact absurd rfl h
      | succ j => rfl
    | succ i =>
      cases j with
      | zero => rfl
      | succ j => simpa using ih (by omega)

theorem set_of_length_le {l : List Nat} {i : Nat} (a : Nat) (h : l.length ≤ i) :
    l.set i a = l := by
  induction l generalizing i with
  | nil => rfl
  | cons x xs ih =>
    cases i with
    | zero => simp at h
    | succ i => simpa using ih (by simpa using h)

/-! ### Claim C1 -/

/-- C1.  At the start of a solve, `Run` builds one domain per cell and the
claim asserts each equals the full mask `(1 << V) - 1` for every `V` the
chosen storage width supports.  The code computes the mask with an
`int`-typed literal `1`, so for `V = 40` on 64-bit storage every domain is
initialised to `255` (x86-64 behaviour of the out-of-range `int` shift) —
and, independently of how the undefined 32-bit shift behaves, *no* `int`
value `x` makes `x - 1` convert to the 64-bit full mask `2^40 - 1`.  For
small `V` (here `V = 20`) the initialisation is the full mask as claimed. -/
theorem C1_wave_init_full_mask_fails :
    waveInit 3 64 40 = [255, 255, 255]
    ∧ waveInitMask 64 40 ≠ 2 ^ 40 - 1
    ∧ (∀ x : Int, -(2 ^ 31) ≤ x → x < 2 ^ 31 → intToWidth 64 (x - 1) ≠ 2 ^ 40 - 1)
    ∧ waveInitMask 64 20 = 2 ^ 20 - 1 := by
  refine ⟨by decide, by decide, ?_, by decide⟩
  intro x h1 h2
  unfold intToWidth
  omega

/-- Witness for C1: the hypotheses of the quantified conjunct hold at
`x = 0`. -/
theorem C1_witness :
    waveInit 3 64 40 = [255, 255, 255] ∧ intToWidth 64 (0 - 1) ≠ 2 ^ 40 - 1 :=
  ⟨C1_wave_init_full_mask_fails.1,
    C1_wave_init_full_mask_fails.2.2.1 0 (by decide) (by decide)⟩

/-! ### Claim C2 -/

/-- C2.  The default linear-congruential selector updates
`seed = seed * 1103515245 + 12345` and returns `seed % max ∈ [0, max)` as
claimed; but the Mersenne-Twister-based selector constructs
`uniform_int_distribution(0, max)`, whose range is the *closed* interval
`[0, max]`, so `pick(max)` can return `max` (here: draw 7 with `max = 3`
returns 3). -/
theorem C2_advanced_selector_exceeds_range :
    (∀ seed max, 1 ≤ max →
      (rngStep seed max).1 < max
      ∧ (rngStep seed max).2 = (seed * 1103515245 + 12345) % 2 ^ 32
      ∧ (rngStep seed max).1 = (rngStep seed max).2 % max)
    ∧ advancedRng 7 3 = 3
    ∧ ¬ advancedRng 7 3 < 3 := by
  refine ⟨?_, by decide, by decide⟩
  intro seed max hmax
  exact ⟨Nat.mod_lt _ (by omega), rfl, rfl⟩

/-- Witness for C2: the quantified conjunct applied at `seed = 0`,
`max = 5`. -/
theorem C2_witness : (rngStep 0 5).1 < 5 ∧ advancedRng 7 3 = 3 :=
  ⟨(C2_advanced_selector_exceeds_range.1 0 5 (by decide)).1,
    C2_advanced_selector_exceeds_range.2.1⟩

/-! ### Claim C7 -/

/-- C7.  `Constrainer::Include` ORs the values mask into the cell's domain
when the cell is not collapsed, and leaves the wave and the queue (and all
other state) exactly unchanged when the cell is already collapsed. -/
theorem C7_include_semantics (w : Nat) (wv : Wave) (q : WFCQueue)
    (cell mask : Nat) :
    (wv.IsCollapsedW cell = true →
      applyCOp w (wv, q) (COp.includeOp cell mask) = (wv, q))
    ∧ (wv.IsCollapsedW cell = false →
      applyCOp w (wv, q) (COp.includeOp cell mask)
        = (wv.set cell (wv.getD cell 0 ||| mask), q)) := by
  constructor <;> intro h <;>
    simp [applyCOp, h, Wave.EnableW]

/-- Witness for C7: a collapsed cell (`mask 2`) is untouched, a
non-collapsed cell (`mask 3`) gains the ORed bit. -/
theorem C7_witness :
    applyCOp 8 ([2], ⟨[0], 0, 0⟩) (COp.includeOp 0 1) = ([2], ⟨[0], 0, 0⟩)
    ∧ applyCOp 8 ([3], ⟨[0], 0, 0⟩) (COp.includeOp 0 4) = ([7], ⟨[0], 0, 0⟩) := by
  constructor
  · exact (C7_include_semantics 8 [2] ⟨[0], 0, 0⟩ 0 1).1 (by decide)
  · have h := (C7_include_semantics 8 [3] ⟨[0], 0, 0⟩ 0 4).2 (by decide)
    simpa using h

/-! ### Claim C9 -/

/-- C9.  Two runs with the same seed, initial world, id map, rule table
and the deterministic default selector produce the same outcome and, on
success, identical final world contents: the whole solver state (queue,
selector, arena, iterations) is a function of those inputs. -/
theorem C9_determinism (cfg : Cfg) (world : List Nat) (seed fuel : Nat)
    (r₁ r₂ : Option (Bool × List Nat))
    (h₁ : r₁ = RunModel cfg world seed fuel)
    (h₂ : r₂ = RunModel cfg world seed fuel) :
    r₁ = r₂ ∧ (∀ b₁ w₁ b₂ w₂, r₁ = some (b₁, w₁) → r₂ = some (b₂, w₂) →
      b₁ = b₂ ∧ w₁ = w₂) := by
  subst h₁; subst h₂
  refine ⟨rfl, ?_⟩
  intro b₁ w₁ b₂ w₂ e₁ e₂
  rw [e₁] at e₂
  have h := Option.some.inj e₂
  exact ⟨congrArg Prod.fst h, congrArg Prod.snd h⟩

/-- Witness for C9 at a concrete configuration and seed. -/
theorem C9_witness :
    RunModel ⟨8, 2, [10, 11], fun k _ cell _ =>
        [COp.excludeOp (if cell = 0 then 1 else 0) (2 ^ k)]⟩ [10, 0] 5 20
      = RunModel ⟨8, 2, [10, 11], fun k _ cell _ =>
        [COp.excludeOp (if cell = 0 then 1 else 0) (2 ^ k)]⟩ [10, 0] 5 20 :=
  (C9_determinism ⟨8, 2, [10, 11], fun k _ cell _ =>
      [COp.excludeOp (if cell = 0 then 1 else 0) (2 ^ k)]⟩ [10, 0] 5 20
    _ _ rfl rfl).1

/-! ### Claim C10 -/

theorem populate_foldl_getD (cfg : Cfg) (w : Wave) :
    ∀ (l : List Nat) (world : List Nat) (i : Nat),
      (l.foldl (populateStep cfg w) world).getD i 0 =
        if i ∈ l ∧ w.IsCollapsedW i = true ∧ i < world.length
        then cfg.idMap.getD (w.GetVariableID i) 0
        else world.getD i 0 := by
  intro l
  induction l with
  | nil => intro world i; simp
  | cons j l ih =>
    intro world i
    have hlen : (populateStep cfg w world j).length = world.length := by
      unfold populateStep
      by_cases hc : w.IsCollapsedW j = true <;> simp [hc]
    rw [List.foldl_cons, ih (populateStep cfg w world j) i, hlen]
    by_cases h1 : i ∈ l ∧ w.IsCollapsedW i = true ∧ i < world.length
    · rw [if_pos h1, if_pos ⟨List.mem_cons_of_mem j h1.1, h1.2⟩]
    · rw [if_neg h1]
      by_cases hij : i = j
      · subst hij
        by_cases hc : w.IsCollapsedW i = true
        · by_cases hl : i < world.length
          · rw [if_pos ⟨List.mem_cons_self i l, hc, hl⟩]
            unfold populateStep
            rw [if_pos hc, getD_set_self _ _ hl]
          · rw [if_neg (by tauto)]
            unfold populateStep
            rw [if_pos hc, set_of_length_le _ (by omega)]
        · rw [if_neg (by tauto)]
          unfold populateStep
          rw [if_neg hc]
      · unfold populateStep
        by_cases hc : w.IsCollapsedW j = true
        · rw [if_pos hc]
          rw [getD_set_ne _ _ (fun h => hij h.symm)]
          by_cases h2 : i ∈ j :: l ∧ w.IsCollapsedW i = true ∧ i < world.length
          · exact absurd ⟨(List.mem_cons.mp h2.1).resolve_left hij, h2.2⟩ h1
          · rw [if_neg h2]
        · rw [if_neg hc]
          by_cases h2 : i ∈ j :: l ∧ w.IsCollapsedW i = true ∧ i < world.length
          · exact absurd ⟨(List.mem_cons.mp h2.1).resolve_left hij, h2.2⟩ h1
          · rw [if_neg h2]

/-- C10.  `PopulateWorld` writes `setValue(i, v)` only for cells whose
domain is a singleton; any cell whose entropy is 0 or ≥ 2 keeps its
previous world value, so neither a failed run nor an event callback
overwrites the caller's value for a non-singleton cell. -/
theorem C10_populate_world_frame (cfg : Cfg) (s : SState) (w : Wave) (i : Nat) :
    (w.IsCollapsedW i = false →
      (PopulateWorld cfg s w).world.getD i 0 = s.world.getD i 0)
    ∧ (i < w.length → w.IsCollapsedW i = true → i < s.world.length →
      (PopulateWorld cfg s w).world.getD i 0
        = cfg.idMap.getD (ctz (w.getD i 0)) 0) := by
  constructor
  · intro hc
    unfold PopulateWorld
    rw [populate_foldl_getD, if_neg (by simp [hc])]
  · intro hi hc hl
    unfold PopulateWorld
    rw [populate_foldl_getD, if_pos ⟨List.mem_range.mpr hi, hc, hl⟩]
    rfl

/-- Witness for C10: wave `[1, 3]` over world `[5, 6]` — the collapsed
cell 0 is written with the id-map value, the entropy-2 cell 1 keeps 6. -/
theorem C10_witness :
    (PopulateWorld ⟨8, 2, [10, 11], fun _ _ _ _ => []⟩ (initState [5, 6] 0)
        [1, 3]).world.getD 1 0 = 6
    ∧ (PopulateWorld ⟨8, 2, [10, 11], fun _ _ _ _ => []⟩ (initState [5, 6] 0)
        [1, 3]).world.getD 0 0 = 10 := by
  constructor
  · exact (C10_populate_world_frame ⟨8, 2, [10, 11], fun _ _ _ _ => []⟩
      (initState [5, 6] 0) [1, 3] 1).1 (by decide)
  · have h := (C10_populate_world_frame ⟨8, 2, [10, 11], fun _ _ _ _ => []⟩
      (initState [5, 6] 0) [1, 3] 0).2 (by decide) (by decide) (by decide)
    simpa using h

/-! ### Claim C4 -/

/-- Loop invariant of the minimum-entropy scan: after processing cells
`[0, start)` the accumulator under-approximates every eligible entropy
seen so far, and a selected cell is the first one attaining the current
best. -/
theorem scanMinAux_spec (w : Wave) :
    ∀ (len start : Nat) (best : Option Nat) (bestE : Nat),
      (∀ j, j < start → 1 < w.EntropyW j → bestE ≤ w.EntropyW j) →
      (best = none → bestE = 2 ^ 64 - 1) →
      (∀ b, best = some b → b < start ∧ 1 < w.EntropyW b ∧ w.EntropyW b = bestE ∧
        ∀ j, j < b → 1 < w.EntropyW j → bestE < w.EntropyW j) →
      ((∀ j, j < start + len → 1 < w.EntropyW j →
          (scanMinAux w (List.range' start len) (best, bestE)).2 ≤ w.EntropyW j) ∧
        ((scanMinAux w (List.range' start len) (best, bestE)).1 = none →
          (scanMinAux w (List.range' start len) (best, bestE)).2 = 2 ^ 64 - 1) ∧
        (∀ b, (scanMinAux w (List.range' start len) (best, bestE)).1 = some b →
          b < start + len ∧ 1 < w.EntropyW b ∧
          w.EntropyW b = (scanMinAux w (List.range' start len) (best, bestE)).2 ∧
          ∀ j, j < b → 1 < w.EntropyW j →
            (scanMinAux w (List.range' start len) (best, bestE)).2 < w.EntropyW j)) := by
  intro len
  induction len with
  | zero =>
    intro start best bestE h1 h2 h3
    simp only [List.range', scanMinAux]
    exact ⟨fun j hj => h1 j (by omega), h2, fun b hb => by
      obtain ⟨hb1, hb2, hb3, hb4⟩ := h3 b hb
      exact ⟨by omega, hb2, hb3, hb4⟩⟩
  | succ len ih =>
    intro start best bestE h1 h2 h3
    rw [List.range'_succ]
    simp only [scanMinAux]
    by_cases hcond : 1 < w.EntropyW start ∧ w.EntropyW start < bestE
    · rw [if_pos hcond]
      have := ih (start + 1) (some start) (w.EntropyW start)
        (fun j hj hje => by
          rcases Nat.lt_or_ge j start with hlt | hge
          · have := h1 j hlt hje; omega
          · have : j = start := by omega
            subst this; omega)
        (fun h => by simp at h)
        (fun b hb => by
          have hbs : b = start := by simpa using hb.symm
          subst hbs
          exact ⟨by omega, hcond.1, rfl, fun j hj hje => by
            have := h1 j hj hje; omega⟩)
      constructor
      · intro j hj hje
        exact this.1 j (by omega) hje
      constructor
      · exact this.2.1
      · intro b hb
        obtain ⟨hb1, hb2, hb3, hb4⟩ := this.2.2 b hb
        exact ⟨by omega, hb2, hb3, hb4⟩
    · rw [if_neg hcond]
      have := ih (start + 1) best bestE
        (fun j hj hje => by
          rcases Nat.lt_or_ge j start with hlt | hge
          · exact h1 j hlt hje
          · have : j = start := by omega
            subst this
            omega)
        h2
        (fun b hb => by
          obtain ⟨hb1, hb2, hb3, hb4⟩ := h3 b hb
          exact ⟨by omega, hb2, hb3, hb4⟩)
      constructor
      · intro j hj hje
        exact this.1 j (by omega) hje
      constructor
      · exact this.2.1
      · intro b hb
        obtain ⟨hb1, hb2, hb3, hb4⟩ := this.2.2 b hb
        exact ⟨by omega, hb2, hb3, hb4⟩

/-- C4.  `Branch` scans cells in ascending id order and selects the cell
of minimal entropy among entropies strictly greater than 1, ties broken by
the lowest cell id; with no such cell `Branch` returns failure.  (The
side hypothesis bounds entropies by the 64-bit storage maximum, which
every width-bounded wave satisfies; the scan's initial best is
`size_t(-1)`.) -/
theorem C4_branch_min_entropy (w : Wave)
    (hbound : ∀ j, j < w.length → w.EntropyW j ≤ 64) :
    (∀ i, findMinEntropyCell w = some i →
      i < w.length ∧ 1 < w.EntropyW i ∧
      (∀ j, j < w.length → 1 < w.EntropyW j → w.EntropyW i ≤ w.EntropyW j) ∧
      (∀ j, j < w.length → 1 < w.EntropyW j → w.EntropyW j = w.EntropyW i → i ≤ j))
    ∧ (findMinEntropyCell w = none → ∀ j, j < w.length → w.EntropyW j ≤ 1)
    ∧ (findMinEntropyCell w = none → ∀ fuel cfg s,
        Branch (fuel + 1) cfg s w = some (false, s, w)) := by
  have hspec := scanMinAux_spec w w.length 0 none (2 ^ 64 - 1)
    (fun j hj => by omega) (fun _ => rfl) (fun b hb => by simp at hb)
  rw [Nat.zero_add] at hspec
  rw [← List.range_eq_range'] at hspec
  refine ⟨?_, ?_, ?_⟩
  · intro i hi
    unfold findMinEntropyCell at hi
    obtain ⟨hb1, hb2, hb3, hb4⟩ := hspec.2.2 i hi
    refine ⟨hb1, hb2, ?_, ?_⟩
    · intro j hj hje
      have := hspec.1 j hj hje
      omega
    · intro j hj hje heq
      by_contra hij
      have := hb4 j (by omega) hje
      omega
  · intro hnone j hj
    unfold findMinEntropyCell at hnone
    by_contra hgt
    have h1 := hspec.1 j hj (by omega)
    have h2 := hspec.2.1 hnone
    have h3 := hbound j hj
    omega
  · intro hnone fuel cfg s
    simp only [Branch, hnone]

/-- Witness for C4 on the wave `[3, 1, 7, 3]`: cell 0 (entropy 2) beats
cell 2 (entropy 3) and ties with cell 3 but has the lower id. -/
theorem C4_witness :
    0 < List.length ([3, 1, 7, 3] : Wave)
      ∧ 1 < Wave.EntropyW [3, 1, 7, 3] 0
      ∧ (∀ j, j < List.length ([3, 1, 7, 3] : Wave) →
          1 < Wave.EntropyW [3, 1, 7, 3] j →
          Wave.EntropyW [3, 1, 7, 3] 0 ≤ Wave.EntropyW [3, 1, 7, 3] j)
      ∧ (∀ j, j < List.length ([3, 1, 7, 3] : Wave) →
          1 < Wave.EntropyW [3, 1, 7, 3] j →
          Wave.EntropyW [3, 1, 7, 3] j = Wave.EntropyW [3, 1, 7, 3] 0 → 0 ≤ j) :=
  (C4_branch_min_entropy [3, 1, 7, 3] (by decide)).1 0 (by decide)

/-! ### Claim C5 -/

/-- C5 counterexample.  A rule may legally `Only` a cell (pushing it),
then `Exclude` its value (domain → 0, no push since it was collapsed), and
then `Include` two values (`Enable` fires because entropy 0 is not
collapsed).  The queued cell now has a non-empty domain of entropy 2, so
the popped cell is *not* necessarily collapsed and the debug assertion
after the contradiction check does fire. -/
theorem C5_counterexample :
    applyOps 8 ([3], ⟨[0], 0, 0⟩)
        [COp.onlyOp 0 1, COp.excludeOp 0 1, COp.includeOp 0 3]
      = ([3], ⟨[0], 0, 1⟩)
    ∧ WFCQueue.emptyQ ⟨[0], 0, 1⟩ = false
    ∧ (WFCQueue.pop ⟨[0], 0, 1⟩).1 = 0
    ∧ Wave.GetMaskW [3] 0 ≠ 0
    ∧ Wave.EntropyW [3] 0 = 2
    ∧ Wave.IsCollapsedW [3] 0 = false := by
  refine ⟨?_, by decide, by decide, by decide, by decide, by decide⟩
  decide

/-- C5 (amended).  Provided every still-queued cell has entropy at most 1
— which holds unless a rule `Include`s values into a queued contradicted
cell — a popped cell with a non-empty domain has entropy exactly 1, its
mask is the power of two of its `countr_zero`, and `Propagate` invokes
precisely the rule indexed by `countr_zero(mask(c))` on it; a popped cell
with an empty domain makes `Propagate` report failure instead. -/
theorem C5_propagate_pop_collapsed (cfg : Cfg) (fuel : Nat) (s : SState)
    (w : Wave) (c : Nat)
    (hfb : s.queue.front < s.queue.back)
    (hc : c = s.queue.data.getD s.queue.front 0)
    (hqinv : ∀ j, s.queue.front ≤ j → j < s.queue.back →
      popcount (w.getD (s.queue.data.getD j 0) 0) ≤ 1) :
    (w.getD c 0 = 0 →
      Propagate cfg (fuel + 1) s w
        = some (false, { s with queue := ⟨s.queue.data, s.queue.front + 1, s.queue.back⟩ }, w))
    ∧ (w.getD c 0 ≠ 0 →
      popcount (w.getD c 0) = 1
      ∧ w.getD c 0 = 2 ^ ctz (w.getD c 0)
      ∧ Propagate cfg (fuel + 1) s w
          = Propagate cfg fuel
              { s with queue :=
                  (applyOps cfg.W (w, ⟨s.queue.data, s.queue.front + 1, s.queue.back⟩)
                    (cfg.rules (ctz (w.getD c 0)) s.world c
                      (cfg.idMap.getD (ctz (w.getD c 0)) 0))).2 }
              (applyOps cfg.W (w, ⟨s.queue.data, s.queue.front + 1, s.queue.back⟩)
                (cfg.rules (ctz (w.getD c 0)) s.world c
                  (cfg.idMap.getD (ctz (w.getD c 0)) 0))).1) := by
  have hemp : s.queue.emptyQ = false := by
    simp only [WFCQueue.emptyQ, beq_eq_false_iff_ne]
    omega
  constructor
  · intro hzero
    have hcontra : w.IsContradictedW (s.queue.data.getD s.queue.front 0) = true := by
      simp only [Wave.IsContradictedW]
      rw [← hc, hzero]
      rfl
    simp only [Propagate, hemp, Bool.false_eq_true, if_false, WFCQueue.pop,
      hcontra, if_true]
  · intro hnz
    have hle : popcount (w.getD c 0) ≤ 1 := by
      have := hqinv s.queue.front (Nat.le_refl _) hfb
      rw [← hc] at this
      exact this
    have hone : popcount (w.getD c 0) = 1 := by
      have := popcount_pos hnz
      omega
    have hcontra : w.IsContradictedW (s.queue.data.getD s.queue.front 0) = false := by
      simp only [Wave.IsContradictedW]
      rw [← hc]
      simpa using hnz
    refine ⟨hone, popcount_one_eq_two_pow_ctz hone, ?_⟩
    simp only [Propagate, hemp, Bool.false_eq_true, if_false, WFCQueue.pop,
      hcontra, Wave.GetVariableID]
    rw [← hc]

/-- Witness for C5 (amended): pop a queued collapsed cell (domain `{1}`,
entropy 1). -/
theorem C5_witness :
    popcount (List.getD ([2] : List Nat) 0 0) = 1
    ∧ List.getD ([2] : List Nat) 0 0 = 2 ^ ctz (List.getD ([2] : List Nat) 0 0) :=
  have h := (C5_propagate_pop_collapsed ⟨8, 2, [10, 11], fun _ _ _ _ => []⟩ 2
    (⟨[0], ⟨[0], 0, 1⟩, 7, Arena.init, 0⟩ : SState) [2] 0
    (by decide) (by decide)
    (by
      intro j h1 h2
      have h2' : j < 1 := h2
      have hj : j = 0 := by omega
      subst hj
      decide)).2
    (by decide)
  ⟨h.1, h.2.1⟩

/-! ### Claim C6 -/

/-- C6 counterexample.  `Exclude` can take a cell directly from entropy 2
to entropy 0 (no push: the transition is not to collapsed), after which an
`Include` of a single value performs a not-collapsed → collapsed
transition — and pushes nothing: the queue is entirely unchanged and
still empty. -/
theorem C6_counterexample :
    applyCOp 8 ([3, 3], ⟨[0, 0], 0, 0⟩) (COp.excludeOp 1 3)
      = ([3, 0], ⟨[0, 0], 0, 0⟩)
    ∧ Wave.IsCollapsedW [3, 0] 1 = false
    ∧ applyCOp 8 ([3, 0], ⟨[0, 0], 0, 0⟩) (COp.includeOp 1 2)
      = ([3, 2], ⟨[0, 0], 0, 0⟩)
    ∧ Wave.IsCollapsedW [3, 2] 1 = true
    ∧ WFCQueue.back ⟨[0, 0], 0, 0⟩ = 0 := by
  refine ⟨by decide, by decide, by decide, by decide, by decide⟩

/-- C6 (amended).  The observed-transition protocol holds for the two
`ApplyMask`-based mutations: `Exclude` and `Only` push the cell exactly
when it was not collapsed before and is collapsed after, and a transition
to an empty domain is never pushed.  `Include` never pushes — in
particular, an `Include` that collapses a previously contradicted cell
leaves the queue unchanged. -/
theorem C6_push_protocol (wd : Nat) (wv : Wave) (q : WFCQueue) (cell : Nat) :
    (∀ m, (applyCOp wd (wv, q) (COp.onlyOp cell m)).2 =
      (if wv.IsCollapsedW cell = false
          ∧ (wv.CollapseW cell m).IsCollapsedW cell = true
       then q.push cell else q))
    ∧ (∀ m, (applyCOp wd (wv, q) (COp.excludeOp cell m)).2 =
      (if wv.IsCollapsedW cell = false
          ∧ (wv.CollapseW cell (complW wd m)).IsCollapsedW cell = true
       then q.push cell else q))
    ∧ (∀ m, (wv.CollapseW cell m).getD cell 0 = 0 →
      (applyCOp wd (wv, q) (COp.onlyOp cell m)).2 = q)
    ∧ (∀ m, (wv.CollapseW cell (complW wd m)).getD cell 0 = 0 →
      (applyCOp wd (wv, q) (COp.excludeOp cell m)).2 = q)
    ∧ (∀ m, (applyCOp wd (wv, q) (COp.includeOp cell m)).2 = q) := by
  have happly : ∀ mk, (ApplyMask wv q cell mk).2 =
      (if wv.IsCollapsedW cell = false
          ∧ (wv.CollapseW cell mk).IsCollapsedW cell = true
       then q.push cell else q) := by
    intro mk
    unfold ApplyMask
    cases hw : wv.IsCollapsedW cell <;>
      cases hw' : (wv.CollapseW cell mk).IsCollapsedW cell <;>
      simp [hw, hw']
  refine ⟨fun m => happly m, fun m => happly (complW wd m), ?_, ?_, ?_⟩
  · intro m hz
    rw [show (applyCOp wd (wv, q) (COp.onlyOp cell m)).2 = (ApplyMask wv q cell m).2 from rfl]
    rw [happly m, if_neg]
    intro hcontra
    have : (wv.CollapseW cell m).IsCollapsedW cell = true := hcontra.2
    simp only [Wave.IsCollapsedW, Wave.EntropyW, hz] at this
    simp [popcount_zero] at this
  · intro m hz
    rw [show (applyCOp wd (wv, q) (COp.excludeOp cell m)).2
        = (ApplyMask wv q cell (complW wd m)).2 from rfl]
    rw [happly (complW wd m), if_neg]
    intro hcontra
    have : (wv.CollapseW cell (complW wd m)).IsCollapsedW cell = true := hcontra.2
    simp only [Wave.IsCollapsedW, Wave.EntropyW, hz] at this
    simp [popcount_zero] at this
  · intro m
    simp only [applyCOp]
    by_cases hw : wv.IsCollapsedW cell = true <;> simp [hw]

/-- Witness for C6 (amended): an `Only` collapsing a full two-value cell
pushes it, and an `Only` driving a collapsed cell to 0 does not. -/
theorem C6_witness :
    (applyCOp 8 ([3], ⟨[0], 0, 0⟩) (COp.onlyOp 0 1)).2
      = WFCQueue.push ⟨[0], 0, 0⟩ 0
    ∧ (applyCOp 8 ([1], ⟨[0], 0, 0⟩) (COp.onlyOp 0 2)).2 = ⟨[0], 0, 0⟩ := by
  constructor
  · have h := (C6_push_protocol 8 [3] ⟨[0], 0, 0⟩ 0).1 1
    rw [h, if_pos (by decide)]
  · exact (C6_push_protocol 8 [1] ⟨[0], 0, 0⟩ 0).2.2.1 2 (by decide)

/-! ### Claim C3 -/

/-- Clearing a set bit by XOR is subtraction of the power of two. -/
theorem xor_two_pow_sub : ∀ {v x : Nat}, x.testBit v = true → x ^^^ 2 ^ v = x - 2 ^ v := by
  intro v
  induction v with
  | zero =>
    intro x h
    have hodd : x % 2 = 1 := by simpa using h
    have hx : x = 2 * (x / 2) + 1 := by omega
    have hb := Nat.xor_bit true (x / 2) true 0
    simp [Nat.bit_val] at hb
    rw [hx]
    simpa using hb
  | succ v ih =>
    intro x h
    have ht : (x / 2).testBit v = true := by
      rw [← Nat.testBit_add_one]; exact h
    have hge : 2 ^ v ≤ x / 2 := Nat.testBit_implies_ge ht
    have hxor := ih ht
    have h2 : (2 : Nat) ^ (v + 1) = 2 * 2 ^ v := by ring
    rcases Nat.mod_two_eq_zero_or_one x with hm | hm
    · have hx : x = 2 * (x / 2) := by omega
      have hb := Nat.xor_bit false (x / 2) false (2 ^ v)
      simp [Nat.bit_val] at hb
      rw [hx, h2, hb, hxor]
      omega
    · have hx : x = 2 * (x / 2) + 1 := by omega
      have hb := Nat.xor_bit true (x / 2) false (2 ^ v)
      simp [Nat.bit_val] at hb
      rw [hx, h2, hb, hxor]
      omega

/-- Bit pattern of the converted `~(1 << v)` mask: every bit below the
storage width except bit `v`. -/
theorem testBit_complShl1W {w v : Nat} (hv : v < 31) (hw : v < w) (b : Nat) :
    (complShl1W w v).testBit b = (decide (b < w) && !(b == v)) := by
  have hsub : (2 ^ w - 1) ^^^ 2 ^ v = 2 ^ w - 1 - 2 ^ v :=
    xor_two_pow_sub (by rw [Nat.testBit_two_pow_sub_one]; simpa using hw)
  rw [complShl1W_small hv hw, ← hsub, Nat.testBit_xor,
    Nat.testBit_two_pow_sub_one, Nat.testBit_two_pow]
  by_cases h2 : v = b
  · subst h2
    simp [hw]
  · simp [h2, Ne.symm h2]

theorem restorePools_length (f : StackFrame) :
    ∀ (ps : List Pool) (k : Nat), (restorePools f k ps).length = ps.length := by
  intro ps
  induction ps with
  | nil => intro k; rfl
  | cons p ps ih => intro k; simp [restorePools, ih]

/-- Element view of the `StackFrame` destructor's pool loop. -/
theorem restorePools_getD (f : StackFrame) :
    ∀ (ps : List Pool) (k j : Nat), j < ps.length →
      (restorePools f k ps).getD j ⟨0, 0⟩ =
        (if f.poolIndex < k + j then ⟨(ps.getD j ⟨0, 0⟩).size, 0⟩
         else if k + j = f.poolIndex then ⟨(ps.getD j ⟨0, 0⟩).size, f.poolUsed⟩
         else ps.getD j ⟨0, 0⟩) := by
  intro ps
  induction ps with
  | nil => intro k j hj; simp at hj
  | cons p ps ih =>
    intro k j hj
    cases j with
    | zero => simp [restorePools]
    | succ j =>
      have hj' : j < ps.length := by simpa using hj
      have := ih (k + 1) j hj'
      simp only [restorePools, List.getD_cons_succ]
      rw [this]
      have harith : k + 1 + j = k + (j + 1) := by omega
      rw [harith]

/-- Effect of destroying the queue branch point and stack frame at the end
of a trial: the cursors and the `(pool index, used)` pair return to their
checkpoint values; world, selector seed and iteration counter keep the
post-trial state. -/
theorem restoreFrames_spec (s s' : SState)
    (hlen : s.arena.cur < s'.arena.pools.length) :
    (restoreFrames s s').queue.front = s.queue.front
    ∧ (restoreFrames s s').queue.back = s.queue.back
    ∧ (restoreFrames s s').arena.cur = s.arena.cur
    ∧ ((restoreFrames s s').arena.pools.getD s.arena.cur ⟨0, 0⟩).used
        = (s.arena.pools.getD s.arena.cur ⟨0, 0⟩).used
    ∧ (restoreFrames s s').world = s'.world
    ∧ (restoreFrames s s').seed = s'.seed
    ∧ (restoreFrames s s').iterations = s'.iterations := by
  refine ⟨rfl, rfl, rfl, ?_, rfl, rfl, rfl⟩
  show ((StackFrame.restore (s.arena.createFrame) s'.arena).pools.getD
      s.arena.cur ⟨0, 0⟩).used = _
  unfold StackFrame.restore
  rw [restorePools_getD (s.arena.createFrame) s'.arena.pools 0 s.arena.cur hlen]
  simp [Arena.createFrame]

theorem swapAt_length (l : List Nat) (i j : Nat) :
    (swapAt l i j).length = l.length := by
  simp [swapAt]

/-- Element view of `std::swap(possibleValues[i], possibleValues[j])`. -/
theorem swapAt_getD (l : List Nat) (i j k : Nat) (hi : i < l.length)
    (hj : j < l.length) :
    (swapAt l i j).getD k 0 =
      if k = j then l.getD i 0 else if k = i then l.getD j 0
      else l.getD k 0 := by
  unfold swapAt
  by_cases hkj : k = j
  · subst hkj
    rw [if_pos rfl, getD_set_self _ _ (by simpa using hj)]
  · rw [if_neg hkj, getD_set_ne _ _ (fun h => hkj h.symm)]
    by_cases hki : k = i
    · subst hki
      rw [if_pos rfl, getD_set_self _ _ hi]
    · rw [if_neg hki, getD_set_ne _ _ (fun h => hki h.symm)]

/-- The trial trace of `BranchLoop`: with pairwise-distinct candidate
entries, the tried values are pairwise distinct (swap-remove and
decrement never retry a value), and every tried value comes from the
active candidate slice. -/
theorem BranchLoop_tried :
    ∀ (fuel : Nat) (cfg : Cfg) (cell : Nat) (pvals : List Nat) (avail : Nat)
      (s : SState) (w : Wave) (r : Bool) (s' : SState) (w' : Wave)
      (tried : List Nat),
      BranchLoop fuel cfg cell pvals avail s w = some (r, s', w', tried) →
      (∀ i j, i < avail → j < avail → i ≠ j → pvals.getD i 0 ≠ pvals.getD j 0) →
      avail ≤ pvals.length →
      tried.Nodup ∧ ∀ x ∈ tried, ∃ i, i < avail ∧ pvals.getD i 0 = x := by
  intro fuel
  induction fuel with
  | zero =>
    intro cfg cell pvals avail s w r s' w' tried h
    simp [BranchLoop] at h
  | succ fuel ih =>
    intro cfg cell pvals avail s w r s' w' tried h hdis hlen
    by_cases ha : avail = 0
    · rw [show BranchLoop (fuel + 1) cfg cell pvals avail s w
          = some (false, s, w, []) from by rw [BranchLoop, if_pos ha]] at h
      simp only [Option.some.injEq, Prod.mk.injEq] at h
      obtain ⟨-, -, -, h4⟩ := h
      subst h4
      exact ⟨List.nodup_nil, by simp⟩
    · have hri : (rngStep s.seed avail).1 < avail :=
        Nat.mod_lt _ (Nat.pos_of_ne_zero ha)
      rw [BranchLoop, if_neg ha] at h
      split at h
      · -- the trial's RunLoop ran out of fuel
        simp at h
      · -- the trial succeeded: exactly one value was tried
        simp only [Option.some.injEq, Prod.mk.injEq] at h
        obtain ⟨-, -, -, h4⟩ := h
        subst h4
        refine ⟨List.nodup_singleton _, ?_⟩
        intro x hx
        rw [List.mem_singleton] at hx
        exact ⟨(rngStep s.seed avail).1, hri, hx.symm⟩
      · -- the trial failed: swap-remove and recurse
        rename_i rs rw hrun
        split at h
        · simp at h
        · rename_i r₂ s₂ w₂ tr hbl
          simp only [Option.some.injEq, Prod.mk.injEq] at h
          obtain ⟨-, -, -, h4⟩ := h
          subst h4
          have hrilen : (rngStep s.seed avail).1 < pvals.length := by omega
          have hlast : avail - 1 < pvals.length := by omega
          -- the new candidate view: position k < avail-1 holds the old
          -- entry at φ k, with φ k := if k = ri then avail-1 else k
          have hview : ∀ k, k < avail - 1 →
              (swapAt pvals ((rngStep s.seed avail).1) (avail - 1)).getD k 0
                = pvals.getD
                    (if k = (rngStep s.seed avail).1 then avail - 1 else k) 0 := by
            intro k hk
            rw [swapAt_getD pvals _ _ k hrilen hlast, if_neg (by omega)]
            by_cases hk2 : k = (rngStep s.seed avail).1
            · rw [if_pos hk2, if_pos hk2]
            · rw [if_neg hk2, if_neg hk2]
          have hdis' : ∀ i j, i < avail - 1 → j < avail - 1 → i ≠ j →
              (swapAt pvals ((rngStep s.seed avail).1) (avail - 1)).getD i 0
                ≠ (swapAt pvals ((rngStep s.seed avail).1) (avail - 1)).getD j 0 := by
            intro i j hi hj hij
            rw [hview i hi, hview j hj]
            apply hdis
            · split <;> omega
            · split <;> omega
            · split <;> split <;> omega
          have hlen' : avail - 1 ≤
              (swapAt pvals ((rngStep s.seed avail).1) (avail - 1)).length := by
            rw [swapAt_length]; omega
          obtain ⟨hnd, hmem⟩ := ih cfg cell _ (avail - 1) _ _ r₂ s₂ w₂ tr hbl
            hdis' hlen'
          have hnotin : pvals.getD ((rngStep s.seed avail).1) 0 ∉ tr := by
            intro hin
            obtain ⟨k, hk, hkeq⟩ := hmem _ hin
            rw [hview k hk] at hkeq
            by_cases h1 : k = (rngStep s.seed avail).1
            · rw [if_pos h1] at hkeq
              exact hdis (avail - 1) ((rngStep s.seed avail).1)
                (by omega) hri (by omega) hkeq
            · rw [if_neg h1] at hkeq
              exact hdis k ((rngStep s.seed avail).1)
                (by omega) hri h1 hkeq
          refine ⟨List.nodup_cons.mpr ⟨hnotin, hnd⟩, ?_⟩
          intro x hx
          rcases List.mem_cons.mp hx with hx | hx
          · exact ⟨(rngStep s.seed avail).1, hri, hx.symm⟩
          · obtain ⟨k, hk, hkeq⟩ := hmem _ hx
            rw [hview k hk] at hkeq
            by_cases h1 : k = (rngStep s.seed avail).1
            · rw [if_pos h1] at hkeq
              exact ⟨avail - 1, by omega, hkeq⟩
            · rw [if_neg h1] at hkeq
              exact ⟨k, by omega, hkeq⟩

/-- C3.  After a failed branch trial: the queue's `(front, back)` and the
arena's `(pool index, used)` are exactly the checkpoint values; every
non-chosen cell's domain is untouched; the chosen cell's domain has lost
exactly the tried value index; and (by swap-remove and decrement) no value
index is ever tried twice in the same branch. -/
theorem C3_backtrack_restores (cfg : Cfg) (fuel : Nat) (cell avail : Nat)
    (pvals : List Nat) (s s' : SState) (w w' : Wave)
    (havail : avail ≠ 0)
    (htrial : RunLoop fuel cfg (trialState cfg cell avail s w)
        (trialWave cfg cell (pvals.getD ((rngStep s.seed avail).1) 0) w)
      = some (false, s', w'))
    (hlen : s.arena.cur < s'.arena.pools.length)
    (hv31 : pvals.getD ((rngStep s.seed avail).1) 0 < 31)
    (hvW : pvals.getD ((rngStep s.seed avail).1) 0 < cfg.W)
    (hmask : w.getD cell 0 < 2 ^ cfg.W) :
    (BranchLoop (fuel + 1) cfg cell pvals avail s w
      = (match BranchLoop fuel cfg cell
            (swapAt pvals ((rngStep s.seed avail).1) (avail - 1)) (avail - 1)
            (restoreFrames s s')
            (removeTried cfg cell (pvals.getD ((rngStep s.seed avail).1) 0) w) with
         | none => none
         | some (r, s'', w'', tried) =>
           some (r, s'', w'', pvals.getD ((rngStep s.seed avail).1) 0 :: tried)))
    ∧ (restoreFrames s s').queue.front = s.queue.front
    ∧ (restoreFrames s s').queue.back = s.queue.back
    ∧ (restoreFrames s s').arena.cur = s.arena.cur
    ∧ ((restoreFrames s s').arena.pools.getD s.arena.cur ⟨0, 0⟩).used
        = (s.arena.pools.getD s.arena.cur ⟨0, 0⟩).used
    ∧ (∀ d, d ≠ cell →
        (removeTried cfg cell (pvals.getD ((rngStep s.seed avail).1) 0) w).getD d 0
          = w.getD d 0)
    ∧ (∀ b, ((removeTried cfg cell (pvals.getD ((rngStep s.seed avail).1) 0) w).getD cell 0).testBit b
        = ((w.getD cell 0).testBit b
            && !(b == pvals.getD ((rngStep s.seed avail).1) 0)))
    ∧ (∀ r s'' w'' tried,
        BranchLoop (fuel + 1) cfg cell pvals avail s w = some (r, s'', w'', tried) →
        (∀ i j, i < avail → j < avail → i ≠ j → pvals.getD i 0 ≠ pvals.getD j 0) →
        avail ≤ pvals.length → tried.Nodup) := by
  obtain ⟨hq1, hq2, ha1, ha2, -, -, -⟩ := restoreFrames_spec s s' hlen
  refine ⟨?_, hq1, hq2, ha1, ha2, ?_, ?_, ?_⟩
  · rw [BranchLoop, if_neg havail, htrial]
  · intro d hd
    unfold removeTried Wave.CollapseW
    exact getD_set_ne _ _ (fun h => hd h.symm)
  · intro b
    unfold removeTried Wave.CollapseW
    by_cases hcell : cell < w.length
    · rw [getD_set_self _ _ hcell, Nat.testBit_land,
        testBit_complShl1W hv31 hvW b]
      by_cases hbw : b < cfg.W
      · simp [hbw]
      · have hfb : (w.getD cell 0).testBit b = false := by
          apply Nat.testBit_lt_two_pow
          calc w.getD cell 0 < 2 ^ cfg.W := hmask
          _ ≤ 2 ^ b := Nat.pow_le_pow_right (by omega) (by omega)
        rw [hfb]
        simp
    · rw [set_of_length_le _ (by omega)]
      have hzero : w.getD cell 0 = 0 := by
        have hge : w.length ≤ cell := by omega
        rw [List.getD_eq_getElem?_getD, List.getElem?_eq_none hge]
        rfl
      rw [hzero]
      simp
  · intro r s'' w'' tried h hdis hl
    exact (BranchLoop_tried (fuel + 1) cfg cell pvals avail s w r s'' w'' tried
      h hdis hl).1

/-- Witness for C3: a concrete failed trial (one cell, two values, a rule
that contradicts the cell) restores the queue cursors and arena position
and removes exactly the tried bit. -/
theorem C3_witness :
    (restoreFrames (initState [99] 1)
        ⟨[99], ⟨[0], 1, 1⟩, 1103527590, ⟨[⟨0, 0⟩, ⟨1048576, 8⟩], 1⟩, 0⟩).queue.front
      = (initState [99] 1).queue.front
    ∧ (restoreFrames (initState [99] 1)
        ⟨[99], ⟨[0], 1, 1⟩, 1103527590, ⟨[⟨0, 0⟩, ⟨1048576, 8⟩], 1⟩, 0⟩).queue.back
      = (initState [99] 1).queue.back
    ∧ (restoreFrames (initState [99] 1)
        ⟨[99], ⟨[0], 1, 1⟩, 1103527590, ⟨[⟨0, 0⟩, ⟨1048576, 8⟩], 1⟩, 0⟩).arena.cur
      = (initState [99] 1).arena.cur
    ∧ ((removeTried ⟨8, 2, [10, 11], fun _ _ _ _ => [COp.excludeOp 0 3]⟩ 0
        (List.getD [0, 1] ((rngStep (initState [99] 1).seed 2).1) 0) [3]).getD 0 0).testBit 0
      = (((3 : Nat).testBit 0)
          && !((0 : Nat) == List.getD [0, 1] ((rngStep (initState [99] 1).seed 2).1) 0)) := by
  have h := C3_backtrack_restores ⟨8, 2, [10, 11], fun _ _ _ _ => [COp.excludeOp 0 3]⟩
    5 0 2 [0, 1] (initState [99] 1)
    ⟨[99], ⟨[0], 1, 1⟩, 1103527590, ⟨[⟨0, 0⟩, ⟨1048576, 8⟩], 1⟩, 0⟩ [3] [0]
    (by decide) (by decide) (by decide) (by decide) (by decide) (by decide)
  exact ⟨h.2.1, h.2.2.1, h.2.2.2.1, h.2.2.2.2.2.2.1 0⟩

/-! ### Claim C8 — the iteration bound of `RunLoop`

`RunLoop` increments the shared counter `state.its` *after* each completed
loop body, and only the *entry* of a body checks `its < MaxIterations`.
During the unwinding of a deep branch stack every level still completes
its current body (and increments), so the final counter can exceed
`MaxIterations` by the branch-nesting depth.  The configuration below
drives a 16-cell binary world into a full unsatisfiable search tree and
realises the overshoot. -/

/-- The counterexample configuration: 8-bit storage, two variables, and a
rule map whose only effect is that collapsing cell `14` excludes both
values of cell `15` (an unsatisfiable constraint reached only at the
bottom of the search tree). -/
def deepCfg : Cfg :=
  ⟨8, 2, [10, 11], fun _ _ cell _ => if cell = 14 then [COp.excludeOp 15 3] else []⟩

/-- The iteration counter produced by one `deepCfg` search level with `m`
levels below it, as a function of the counter at entry: both child trials
run (each transforming the counter like a level with `m - 1` levels
below), then the completed body increments — but only if the entry check
passed. -/
def TIter : Nat → Nat → Nat
  | 0, x => if x < MaxIterations then x + 1 else x
  | m + 1, x => if x < MaxIterations then TIter m (TIter m x) + 1 else x

theorem TIter_ge {m x : Nat} (h : MaxIterations ≤ x) : TIter m x = x := by
  cases m with
  | zero => rw [TIter, if_neg (by omega)]
  | succ m => rw [TIter, if_neg (by omega)]

theorem hasContradictionW_true {w : Wave} {i : Nat} (hi : i < w.length)
    (h : w.getD i 0 = 0) : w.HasContradictionW = true := by
  unfold Wave.HasContradictionW
  rw [List.any_eq_true]
  refine ⟨w.getD i 0, ?_, by rw [h]; rfl⟩
  rw [List.getD_eq_getElem w 0 hi]
  exact List.getElem_mem hi

theorem hasContradictionW_false {w : Wave}
    (h : ∀ i, i < w.length → w.getD i 0 ≠ 0) : w.HasContradictionW = false := by
  unfold Wave.HasContradictionW
  rw [Bool.eq_false_iff]
  intro hany
  rw [List.any_eq_true] at hany
  obtain ⟨x, hx, hx0⟩ := hany
  obtain ⟨n, hn, he⟩ := List.mem_iff_getElem.mp hx
  refine h n hn ?_
  rw [List.getD_eq_getElem w 0 hn, he]
  exact beq_iff_eq.mp hx0

theorem isFullyCollapsedW_false {w : Wave} {i : Nat} (hi : i < w.length)
    (h : popcount (w.getD i 0) ≠ 1) : w.IsFullyCollapsedW = false := by
  unfold Wave.IsFullyCollapsedW
  rw [Bool.eq_false_iff]
  intro hall
  rw [List.all_eq_true] at hall
  refine h ?_
  have hm : w.getD i 0 ∈ w := by
    rw [List.getD_eq_getElem w 0 hi]; exact List.getElem_mem hi
  exact beq_iff_eq.mp (hall _ hm)

/-- Once the counter has reached the bound, the next `RunLoop` entry
returns failure immediately, leaving state and wave untouched. -/
theorem RunLoop_exhausted {fuel : Nat} {cfg : Cfg} {s : SState} {w : Wave}
    (h : ¬ s.iterations < MaxIterations) :
    RunLoop (fuel + 1) cfg s w = some (false, s, w) := by
  rw [RunLoop, if_neg h]

/-- `Propagate` on a drained queue returns success immediately. -/
theorem propagate_empty (cfg : Cfg) (fuel : Nat) (s : SState) (w : Wave)
    (h : s.queue.front = s.queue.back) :
    Propagate cfg (fuel + 1) s w = some (true, s, w) := by
  rw [Propagate, if_pos (by simp [WFCQueue.emptyQ, h])]

/-- `Propagate` under `deepCfg` with exactly one pending cell other than
`14` and a non-empty domain there: the pop fires an empty rule list and
the drained queue then returns success with the wave unchanged. -/
theorem propagate_pending (fuel : Nat) (s : SState) (w : Wave)
    (hfb : s.queue.front + 1 = s.queue.back)
    (hcell : s.queue.data.getD s.queue.front 0 ≠ 14)
    (hmask : w.getD (s.queue.data.getD s.queue.front 0) 0 ≠ 0) :
    Propagate deepCfg (fuel + 2) s w
      = some (true,
          { s with queue := ⟨s.queue.data, s.queue.front + 1, s.queue.back⟩ }, w) := by
  rw [Propagate, if_neg (by simp only [WFCQueue.emptyQ, beq_iff_eq]; omega)]
  have hcontra : w.IsContradictedW (s.queue.pop).1 = false := by
    simp only [WFCQueue.pop, Wave.IsContradictedW]
    exact beq_eq_false_iff_ne.mpr hmask
  have hops : ∀ (vid : Nat),
      deepCfg.rules vid s.world ((s.queue.pop).1) (deepCfg.idMap.getD vid 0) = [] := by
    intro vid
    show (if (s.queue.pop).1 = 14 then [COp.excludeOp 15 3] else []) = []
    exact if_neg hcell
  simp only [hcontra, Bool.false_eq_true, if_false, hops, applyOps, List.foldl_nil]
  exact propagate_empty deepCfg fuel _ w (by simpa using hfb)

/-- `Propagate` under `deepCfg` with exactly one pending cell, namely `14`,
still holding a non-empty domain, while cell `15` still holds the full
two-value domain `3`: the rule excludes both values of cell `15` (no push,
since `15` transitions to the empty domain) and the drained queue then
returns success. -/
theorem propagate_kill15 (fuel : Nat) (s : SState) (w : Wave)
    (hfb : s.queue.front + 1 = s.queue.back)
    (hcell : s.queue.data.getD s.queue.front 0 = 14)
    (hmask14 : w.getD 14 0 ≠ 0)
    (hmask15 : w.getD 15 0 = 3) :
    Propagate deepCfg (fuel + 2) s w
      = some (true,
          { s with queue := ⟨s.queue.data, s.queue.front + 1, s.queue.back⟩ },
          w.set 15 0) := by
  rw [Propagate, if_neg (by simp only [WFCQueue.emptyQ, beq_iff_eq]; omega)]
  have hcontra : w.IsContradictedW (s.queue.pop).1 = false := by
    simp only [WFCQueue.pop, Wave.IsContradictedW]
    rw [hcell]
    exact beq_eq_false_iff_ne.mpr hmask14
  have hops : ∀ (vid : Nat),
      deepCfg.rules vid s.world ((s.queue.pop).1) (deepCfg.idMap.getD vid 0)
        = [COp.excludeOp 15 3] := by
    intro vid
    show (if (s.queue.pop).1 = 14 then [COp.excludeOp 15 3] else [])
        = [COp.excludeOp 15 3]
    exact if_pos hcell
  have happ : ∀ (q : WFCQueue),
      applyOps deepCfg.W (w, q) [COp.excludeOp 15 3] = (w.set 15 0, q) := by
    intro q
    show applyCOp deepCfg.W (w, q) (COp.excludeOp 15 3) = (w.set 15 0, q)
    show ApplyMask w q 15 (complW deepCfg.W 3) = (w.set 15 0, q)
    unfold ApplyMask
    have hw15 : w.CollapseW 15 (complW deepCfg.W 3) = w.set 15 0 := by
      unfold Wave.CollapseW
      rw [hmask15]
      rfl
    have hcoll : Wave.IsCollapsedW (w.set 15 0) 15 = false := by
      simp only [Wave.IsCollapsedW, Wave.EntropyW]
      rcases Nat.lt_or_ge 15 w.length with hl | hl
      · rw [getD_set_self 0 0 hl]; rfl
      · rw [set_of_length_le 0 hl]
        rw [List.getD_eq_default]
        · rfl
        · omega
    rw [hw15]
    simp only [hcoll, Bool.and_false, Bool.false_eq_true, if_false]
  simp only [hcontra, Bool.false_eq_true, if_false, hops, happ]
  exact propagate_empty deepCfg fuel _ _ (by simpa using hfb)

/-- The bottom of the `deepCfg` search tree: a `RunLoop` call entered with
cell `14` pending (freshly collapsed) and cell `15` still full.  The
propagation excludes both values of cell `15`, the contradiction check
fires, and the call fails without touching the iteration counter — or, if
the counter is already exhausted, the call fails immediately. -/
theorem deep_level15 : ∀ fc : Nat, 1 ≤ fc → ∀ (cs : SState) (cw : Wave),
    cs.queue.data.length = 16 →
    cs.queue.front + 1 = cs.queue.back →
    cs.queue.back = 15 →
    cs.queue.data.getD cs.queue.front 0 = 14 →
    cw.length = 16 →
    (∀ i, i < 15 → popcount (cw.getD i 0) = 1) →
    (∀ i, 15 ≤ i → i < 16 → cw.getD i 0 = 3) →
    ∃ cs' cw', RunLoop fc deepCfg cs cw = some (false, cs', cw')
      ∧ cs'.iterations = cs.iterations ∧ cs'.queue.data.length = 16 := by
  intro fc hfc cs cw hqlen hfb hback hpend hwlen hlow hhi
  obtain ⟨f, rfl⟩ : ∃ f, fc = f + 1 := ⟨fc - 1, by omega⟩
  by_cases hx : cs.iterations < MaxIterations
  · have hmask14 : cw.getD 14 0 ≠ 0 := by
      have h14 := hlow 14 (by omega)
      intro h0
      rw [h0, popcount_zero] at h14
      omega
    have hm15 : cw.getD 15 0 = 3 := hhi 15 le_rfl (by omega)
    have hprop : Propagate deepCfg (cs.queue.data.length + 1) cs cw
        = some (true,
            { cs with queue := ⟨cs.queue.data, cs.queue.front + 1, cs.queue.back⟩ },
            cw.set 15 0) := by
      rw [show cs.queue.data.length + 1 = 15 + 2 from by omega]
      exact propagate_kill15 15 cs cw hfb hpend hmask14 hm15
    refine ⟨{ cs with queue := ⟨cs.queue.data, cs.queue.front + 1, cs.queue.back⟩ },
      cw.set 15 0, ?_, rfl, by simpa using hqlen⟩
    rw [RunLoop, if_pos hx, hprop]
    have hc : Wave.HasContradictionW (cw.set 15 0) = true :=
      hasContradictionW_true (i := 15) (by rw [List.length_set]; omega)
        (getD_set_self 0 0 (by omega))
    simp only [hc, eq_self_iff_true, if_true]
  · exact ⟨cs, cw, RunLoop_exhausted hx, rfl, hqlen⟩

/-- The minimum-entropy scan leaves the accumulator alone on a stretch of
cells that never beat it. -/
theorem scanMinAux_skip (w : Wave) : ∀ (l : List Nat) (acc : Option Nat × Nat),
    (∀ i ∈ l, ¬ (1 < Wave.EntropyW w i ∧ Wave.EntropyW w i < acc.2)) →
    scanMinAux w l acc = acc := by
  intro l
  induction l with
  | nil => intro acc _; rfl
  | cons a rest ih =>
    intro acc h
    simp only [scanMinAux]
    rw [if_neg (h a (by simp))]
    exact ih acc (fun i hi => h i (by simp [hi]))

/-- The scan on a wave whose first `k` cells are collapsed and whose
remaining cells hold the two-value domain `3` selects cell `k`. -/
theorem scanMin_shape_aux (w : Wave) (k : Nat) (hk : k < 16)
    (hlow : ∀ i, i < k → popcount (w.getD i 0) = 1)
    (hhi : ∀ i, k ≤ i → i < 16 → w.getD i 0 = 3) :
    ∀ (len start : Nat), start + len = 16 → start ≤ k →
      (scanMinAux w (List.range' start len) (none, 2 ^ 64 - 1)).1 = some k := by
  intro len
  induction len with
  | zero => intro start h1 h2; omega
  | succ len ih =>
    intro start h1 h2
    rw [List.range'_succ]
    simp only [scanMinAux]
    by_cases hsk : start = k
    · subst hsk
      have hes : Wave.EntropyW w start = 2 := by
        unfold Wave.EntropyW
        rw [hhi start le_rfl (by omega)]
        decide
      rw [if_pos (by rw [hes]; norm_num)]
      rw [scanMinAux_skip w _ _ (by
        intro i hi
        have hir : start + 1 ≤ i ∧ i < start + 1 + len := by
          simpa using List.mem_range'_1.mp hi
        have hei : Wave.EntropyW w i = 2 := by
          unfold Wave.EntropyW
          rw [hhi i (by omega) (by omega)]
          decide
        rw [hes, hei]
        omega)]
    · have hes : Wave.EntropyW w start = 1 := by
        unfold Wave.EntropyW
        exact hlow start (by omega)
      rw [if_neg (by rw [hes]; omega)]
      exact ih (start + 1) (by omega) (by omega)

/-- `Branch`'s scan on a `deepCfg` search wave: the first uncollapsed cell
(`k`, holding domain `3`) is selected. -/
theorem findMin_of_shape {w : Wave} {k : Nat} (hwlen : w.length = 16)
    (hk : k < 16)
    (hlow : ∀ i, i < k → popcount (w.getD i 0) = 1)
    (hhi : ∀ i, k ≤ i → i < 16 → w.getD i 0 = 3) :
    findMinEntropyCell w = some k := by
  unfold findMinEntropyCell
  rw [hwlen, List.range_eq_range']
  exact scanMin_shape_aux w k hk hlow hhi 16 0 rfl (by omega)

/-- After a failed branch, the re-entered `RunLoop` fails at once: either
the counter is exhausted, or the drained queue lets `Propagate` succeed
trivially and the contradiction check fires. -/
theorem deep_final_step (f : Nat) (X : SState) (W : Wave)
    (hfb : X.queue.front = X.queue.back)
    (hcon : Wave.HasContradictionW W = true) :
    RunLoop (f + 1) deepCfg X W = some (false, X, W) := by
  by_cases hx : X.iterations < MaxIterations
  · rw [RunLoop, if_pos hx]
    have hpe := propagate_empty deepCfg X.queue.data.length X W hfb
    simp only [hpe, hcon, eq_self_iff_true, if_true]
  · exact RunLoop_exhausted hx

/-- One full level of the `deepCfg` search, assuming the behaviour of the
level below (`hchild`, with counter transform `g`).  The level's
`Propagate` has already been characterised by `hprop`; the branch then
selects cell `k`, tries both values (each child fails), removes both from
cell `k`'s domain and fails on the resulting contradiction — after the
completed body incremented the shared counter, provided the entry check
let the body run at all. -/
theorem deep_branch_common (k F : Nat) (hk : k ≤ 14) (g : Nat → Nat)
    (hchild : ∀ fc : Nat, F ≤ fc → ∀ (cs : SState) (cw : Wave),
      cs.queue.data.length = 16 →
      cs.queue.front + 1 = cs.queue.back →
      cs.queue.back = k + 1 →
      cs.queue.data.getD cs.queue.front 0 = k →
      cw.length = 16 →
      (∀ i, i < k + 1 → popcount (cw.getD i 0) = 1) →
      (∀ i, k + 1 ≤ i → i < 16 → cw.getD i 0 = 3) →
      ∃ cs₃ cw₃, RunLoop fc deepCfg cs cw = some (false, cs₃, cw₃)
        ∧ cs₃.iterations = g cs.iterations ∧ cs₃.queue.data.length = 16) :
    ∀ fuel : Nat, F + 7 ≤ fuel →
    ∀ (s : SState) (w : Wave) (sd : SState),
      s.queue.data.length = 16 →
      Propagate deepCfg (s.queue.data.length + 1) s w = some (true, sd, w) →
      sd.queue.data.length = 16 →
      sd.queue.front = sd.queue.back →
      sd.queue.back = k →
      sd.iterations = s.iterations →
      w.length = 16 →
      (∀ i, i < k → popcount (w.getD i 0) = 1) →
      (∀ i, k ≤ i → i < 16 → w.getD i 0 = 3) →
      ∃ s₃ w₃, RunLoop fuel deepCfg s w = some (false, s₃, w₃)
        ∧ s₃.iterations = (if s.iterations < MaxIterations
            then g (g s.iterations) + 1 else s.iterations)
        ∧ s₃.queue.data.length = 16 := by
  intro fuel hfuel s w sd hslen hprop hsdlen hsdfb hsdback hsdits hwlen hlow hhi
  obtain ⟨f, rfl⟩ : ∃ y, fuel = y + 1 + 1 + 1 + 1 + 1 := ⟨fuel - 5, by omega⟩
  by_cases hx : s.iterations < MaxIterations
  · -- the body runs: propagate, branch at cell k, both trials fail
    have hnc : w.HasContradictionW = false := hasContradictionW_false (by
      intro i hilen
      rw [hwlen] at hilen
      rcases Nat.lt_or_ge i k with hik | hik
      · have h1 := hlow i hik
        intro h0
        rw [h0, popcount_zero] at h1
        omega
      · rw [hhi i hik hilen]; omega)
    have hnf : w.IsFullyCollapsedW = false :=
      isFullyCollapsedW_false (i := k) (by rw [hwlen]; omega)
        (by rw [hhi k le_rfl (by omega)]; decide)
    have hfind : findMinEntropyCell w = some k :=
      findMin_of_shape hwlen (by omega) hlow hhi
    have hek : Wave.EntropyW w k = 2 := by
      unfold Wave.EntropyW
      rw [hhi k le_rfl (by omega)]
      decide
    have hmk : Wave.GetMaskW w k = 3 := hhi k le_rfl (by omega)
    have hpv : extractBits 2 3 ++ List.replicate (deepCfg.V - 2) 0 = [0, 1] := by
      decide
    have hsdfront : sd.queue.front = k := by rw [hsdfb, hsdback]
    have hpushq : sd.queue.push k = ⟨sd.queue.data.set k k, k, k + 1⟩ := by
      unfold WFCQueue.push
      rw [if_pos (by rw [hsdback, hsdlen]; omega)]
      rw [hsdback, hsdfront]
    have hriv : (rngStep sd.seed 2).1 = 0 ∨ (rngStep sd.seed 2).1 = 1 := by
      have hlt : (rngStep sd.seed 2).1 < 2 := Nat.mod_lt _ (by omega)
      omega
    rcases hriv with hri | hri
    · -- the selector picks value 0 first, then value 1
      obtain ⟨cs₁, cw₁, hrun₁, hits₁, hql₁⟩ :=
        hchild (f + 1 + 1) (by omega) (trialState deepCfg k 2 sd w)
          (trialWave deepCfg k 0 w)
          (by show (sd.queue.push k).data.length = 16
              rw [hpushq]
              show (sd.queue.data.set k k).length = 16
              rw [List.length_set]
              exact hsdlen)
          (by show (sd.queue.push k).front + 1 = (sd.queue.push k).back
              rw [hpushq])
          (by show (sd.queue.push k).back = k + 1
              rw [hpushq])
          (by show (sd.queue.push k).data.getD (sd.queue.push k).front 0 = k
              rw [hpushq]
              show (sd.queue.data.set k k).getD k 0 = k
              exact getD_set_self k 0 (by rw [hsdlen]; omega))
          (by simp only [trialWave, Wave.CollapseW, List.length_set]; exact hwlen)
          (by intro i hik1
              simp only [trialWave, Wave.CollapseW]
              rcases Nat.lt_or_ge i k with hik | hik
              · rw [getD_set_ne _ 0 (by omega)]
                exact hlow i hik
              · have hikk : i = k := by omega
                subst hikk
                rw [getD_set_self _ 0 (by rw [hwlen]; omega)]
                rw [hhi i le_rfl (by omega)]
                decide)
          (by intro i hik1 hi16
              simp only [trialWave, Wave.CollapseW]
              rw [getD_set_ne _ 0 (by omega)]
              exact hhi i (by omega) hi16)
      have hits₁a : cs₁.iterations = g sd.iterations := hits₁
      have hb2 : (restoreFrames sd cs₁).queue.back = k := hsdback
      have hf2 : (restoreFrames sd cs₁).queue.front = k := hsdfront
      have hd2 : (restoreFrames sd cs₁).queue.data = cs₁.queue.data := rfl
      have hpushq₂ : (restoreFrames sd cs₁).queue.push k
          = ⟨cs₁.queue.data.set k k, k, k + 1⟩ := by
        unfold WFCQueue.push
        rw [hb2, hf2, hd2]
        rw [if_pos (by rw [hql₁]; omega)]
      obtain ⟨cs₂, cw₂, hrun₂, hits₂, hql₂⟩ :=
        hchild (f + 1) (by omega)
          (trialState deepCfg k (2 - 1) (restoreFrames sd cs₁)
            (removeTried deepCfg k 0 w))
          (trialWave deepCfg k 1 (removeTried deepCfg k 0 w))
          (by show ((restoreFrames sd cs₁).queue.push k).data.length = 16
              rw [hpushq₂]
              show (cs₁.queue.data.set k k).length = 16
              rw [List.length_set]
              exact hql₁)
          (by show ((restoreFrames sd cs₁).queue.push k).front + 1
                = ((restoreFrames sd cs₁).queue.push k).back
              rw [hpushq₂])
          (by show ((restoreFrames sd cs₁).queue.push k).back = k + 1
              rw [hpushq₂])
          (by show ((restoreFrames sd cs₁).queue.push k).data.getD
                ((restoreFrames sd cs₁).queue.push k).front 0 = k
              rw [hpushq₂]
              show (cs₁.queue.data.set k k).getD k 0 = k
              exact getD_set_self k 0 (by rw [hql₁]; omega))
          (by simp only [trialWave, removeTried, Wave.CollapseW, List.length_set]
              exact hwlen)
          (by intro i hik1
              simp only [trialWave, removeTried, Wave.CollapseW]
              rcases Nat.lt_or_ge i k with hik | hik
              · rw [getD_set_ne _ 0 (by omega), getD_set_ne _ 0 (by omega)]
                exact hlow i hik
              · have hikk : i = k := by omega
                subst hikk
                rw [getD_set_self _ 0 (by rw [List.length_set, hwlen]; omega)]
                rw [getD_set_self _ 0 (by rw [hwlen]; omega)]
                rw [hhi i le_rfl (by omega)]
                decide)
          (by intro i hik1 hi16
              simp only [trialWave, removeTried, Wave.CollapseW]
              rw [getD_set_ne _ 0 (by omega), getD_set_ne _ 0 (by omega)]
              exact hhi i (by omega) hi16)
      have hits₂a : cs₂.iterations = g cs₁.iterations := hits₂
      have hg0 : ([0, 1] : List Nat).getD 0 0 = 0 := rfl
      have hsw : swapAt [0, 1] 0 (2 - 1) = [1, 0] := rfl
      have hria : (rngStep (restoreFrames sd cs₁).seed (2 - 1)).1 = 0 :=
        Nat.mod_one _
      have hg1 : ([1, 0] : List Nat).getD 0 0 = 1 := rfl
      have hBL : BranchLoop (f + 1 + 1 + 1) deepCfg k [0, 1] 2 sd w
          = some (false,
              restoreFrames (restoreFrames sd cs₁) cs₂,
              removeTried deepCfg k 1 (removeTried deepCfg k 0 w), [0, 1]) := by
        rw [BranchLoop]
        rw [if_neg (by omega)]
        rw [hri, hg0]
        simp only [hrun₁]
        rw [hsw]
        rw [BranchLoop]
        rw [if_neg (by omega)]
        rw [hria, hg1]
        simp only [hrun₂]
        rw [BranchLoop]
        rw [if_pos (by omega)]
      have hB : Branch (f + 1 + 1 + 1 + 1) deepCfg sd w
          = some (false, restoreFrames (restoreFrames sd cs₁) cs₂,
              removeTried deepCfg k 1 (removeTried deepCfg k 0 w)) := by
        rw [Branch, hfind]
        simp only [hek, hmk, hpv, hBL]
      have hWk : (removeTried deepCfg k 1 (removeTried deepCfg k 0 w)).getD k 0
          = 0 := by
        simp only [removeTried, Wave.CollapseW]
        rw [getD_set_self _ 0 (by rw [List.length_set, hwlen]; omega)]
        rw [getD_set_self _ 0 (by rw [hwlen]; omega)]
        rw [hhi k le_rfl (by omega)]
        decide
      have hWlen : (removeTried deepCfg k 1 (removeTried deepCfg k 0 w)).length
          = 16 := by
        simp only [removeTried, Wave.CollapseW, List.length_set]
        exact hwlen
      have hWc : Wave.HasContradictionW
          (removeTried deepCfg k 1 (removeTried deepCfg k 0 w)) = true :=
        hasContradictionW_true (i := k) (by rw [hWlen]; omega) hWk
      refine ⟨{ restoreFrames (restoreFrames sd cs₁) cs₂ with
          iterations := (restoreFrames (restoreFrames sd cs₁) cs₂).iterations + 1 },
        removeTried deepCfg k 1 (removeTried deepCfg k 0 w), ?_, ?_, ?_⟩
      · rw [RunLoop, if_pos hx]
        simp only [hprop, hnc, hnf, Bool.false_eq_true, if_false, hB]
        exact deep_final_step (f + 1 + 1 + 1) _ _ hsdfb hWc
      · rw [if_pos hx]
        show (restoreFrames (restoreFrames sd cs₁) cs₂).iterations + 1
            = g (g s.iterations) + 1
        have h1 : (restoreFrames (restoreFrames sd cs₁) cs₂).iterations
            = cs₂.iterations := rfl
        rw [h1, hits₂a, hits₁a, hsdits]
      · show cs₂.queue.data.length = 16
        exact hql₂
    · -- the selector picks value 1 first, then value 0
      obtain ⟨cs₁, cw₁, hrun₁, hits₁, hql₁⟩ :=
        hchild (f + 1 + 1) (by omega) (trialState deepCfg k 2 sd w)
          (trialWave deepCfg k 1 w)
          (by show (sd.queue.push k).data.length = 16
              rw [hpushq]
              show (sd.queue.data.set k k).length = 16
              rw [List.length_set]
              exact hsdlen)
          (by show (sd.queue.push k).front + 1 = (sd.queue.push k).back
              rw [hpushq])
          (by show (sd.queue.push k).back = k + 1
              rw [hpushq])
          (by show (sd.queue.push k).data.getD (sd.queue.push k).front 0 = k
              rw [hpushq]
              show (sd.queue.data.set k k).getD k 0 = k
              exact getD_set_self k 0 (by rw [hsdlen]; omega))
          (by simp only [trialWave, Wave.CollapseW, List.length_set]; exact hwlen)
          (by intro i hik1
              simp only [trialWave, Wave.CollapseW]
              rcases Nat.lt_or_ge i k with hik | hik
              · rw [getD_set_ne _ 0 (by omega)]
                exact hlow i hik
              · have hikk : i = k := by omega
                subst hikk
                rw [getD_set_self _ 0 (by rw [hwlen]; omega)]
                rw [hhi i le_rfl (by omega)]
                decide)
          (by intro i hik1 hi16
              simp only [trialWave, Wave.CollapseW]
              rw [getD_set_ne _ 0 (by omega)]
              exact hhi i (by omega) hi16)
      have hits₁a : cs₁.iterations = g sd.iterations := hits₁
      have hb2 : (restoreFrames sd cs₁).queue.back = k := hsdback
      have hf2 : (restoreFrames sd cs₁).queue.front = k := hsdfront
      have hd2 : (restoreFrames sd cs₁).queue.data = cs₁.queue.data := rfl
      have hpushq₂ : (restoreFrames sd cs₁).queue.push k
          = ⟨cs₁.queue.data.set k k, k, k + 1⟩ := by
        unfold WFCQueue.push
        rw [hb2, hf2, hd2]
        rw [if_pos (by rw [hql₁]; omega)]
      obtain ⟨cs₂, cw₂, hrun₂, hits₂, hql₂⟩ :=
        hchild (f + 1) (by omega)
          (trialState deepCfg k (2 - 1) (restoreFrames sd cs₁)
            (removeTried deepCfg k 1 w))
          (trialWave deepCfg k 0 (removeTried deepCfg k 1 w))
          (by show ((restoreFrames sd cs₁).queue.push k).data.length = 16
              rw [hpushq₂]
              show (cs₁.queue.data.set k k).length = 16
              rw [List.length_set]
              exact hql₁)
          (by show ((restoreFrames sd cs₁).queue.push k).front + 1
                = ((restoreFrames sd cs₁).queue.push k).back
              rw [hpushq₂])
          (by show ((restoreFrames sd cs₁).queue.push k).back = k + 1
              rw [hpushq₂])
          (by show ((restoreFrames sd cs₁).queue.push k).data.getD
                ((restoreFrames sd cs₁).queue.push k).front 0 = k
              rw [hpushq₂]
              show (cs₁.queue.data.set k k).getD k 0 = k
              exact getD_set_self k 0 (by rw [hql₁]; omega))
          (by simp only [trialWave, removeTried, Wave.CollapseW, List.length_set]
              exact hwlen)
          (by intro i hik1
              simp only [trialWave, removeTried, Wave.CollapseW]
              rcases Nat.lt_or_ge i k with hik | hik
              · rw [getD_set_ne _ 0 (by omega), getD_set_ne _ 0 (by omega)]
                exact hlow i hik
              · have hikk : i = k := by omega
                subst hikk
                rw [getD_set_self _ 0 (by rw [List.length_set, hwlen]; omega)]
                rw [getD_set_self _ 0 (by rw [hwlen]; omega)]
                rw [hhi i le_rfl (by omega)]
                decide)
          (by intro i hik1 hi16
              simp only [trialWave, removeTried, Wave.CollapseW]
              rw [getD_set_ne _ 0 (by omega), getD_set_ne _ 0 (by omega)]
              exact hhi i (by omega) hi16)
      have hits₂a : cs₂.iterations = g cs₁.iterations := hits₂
      have hg0 : ([0, 1] : List Nat).getD 1 0 = 1 := rfl
      have hsw : swapAt [0, 1] 1 (2 - 1) = [0, 1] := rfl
      have hria : (rngStep (restoreFrames sd cs₁).seed (2 - 1)).1 = 0 :=
        Nat.mod_one _
      have hg1 : ([0, 1] : List Nat).getD 0 0 = 0 := rfl
      have hBL : BranchLoop (f + 1 + 1 + 1) deepCfg k [0, 1] 2 sd w
          = some (false,
              restoreFrames (restoreFrames sd cs₁) cs₂,
              removeTried deepCfg k 0 (removeTried deepCfg k 1 w), [1, 0]) := by
        rw [BranchLoop]
        rw [if_neg (by omega)]
        rw [hri, hg0]
        simp only [hrun₁]
        rw [hsw]
        rw [BranchLoop]
        rw [if_neg (by omega)]
        rw [hria, hg1]
        simp only [hrun₂]
        rw [BranchLoop]
        rw [if_pos (by omega)]
      have hB : Branch (f + 1 + 1 + 1 + 1) deepCfg sd w
          = some (false, restoreFrames (restoreFrames sd cs₁) cs₂,
              removeTried deepCfg k 0 (removeTried deepCfg k 1 w)) := by
        rw [Branch, hfind]
        simp only [hek, hmk, hpv, hBL]
      have hWk : (removeTried deepCfg k 0 (removeTried deepCfg k 1 w)).getD k 0
          = 0 := by
        simp only [removeTried, Wave.CollapseW]
        rw [getD_set_self _ 0 (by rw [List.length_set, hwlen]; omega)]
        rw [getD_set_self _ 0 (by rw [hwlen]; omega)]
        rw [hhi k le_rfl (by omega)]
        decide
      have hWlen : (removeTried deepCfg k 0 (removeTried deepCfg k 1 w)).length
          = 16 := by
        simp only [removeTried, Wave.CollapseW, List.length_set]
        exact hwlen
      have hWc : Wave.HasContradictionW
          (removeTried deepCfg k 0 (removeTried deepCfg k 1 w)) = true :=
        hasContradictionW_true (i := k) (by rw [hWlen]; omega) hWk
      refine ⟨{ restoreFrames (restoreFrames sd cs₁) cs₂ with
          iterations := (restoreFrames (restoreFrames sd cs₁) cs₂).iterations + 1 },
        removeTried deepCfg k 0 (removeTried deepCfg k 1 w), ?_, ?_, ?_⟩
      · rw [RunLoop, if_pos hx]
        simp only [hprop, hnc, hnf, Bool.false_eq_true, if_false, hB]
        exact deep_final_step (f + 1 + 1 + 1) _ _ hsdfb hWc
      · rw [if_pos hx]
        show (restoreFrames (restoreFrames sd cs₁) cs₂).iterations + 1
            = g (g s.iterations) + 1
        have h1 : (restoreFrames (restoreFrames sd cs₁) cs₂).iterations
            = cs₂.iterations := rfl
        rw [h1, hits₂a, hits₁a, hsdits]
      · show cs₂.queue.data.length = 16
        exact hql₂
  · -- the counter is already exhausted at entry
    exact ⟨s, w, RunLoop_exhausted hx, by rw [if_neg hx], hslen⟩

theorem getD_replicate {n a i d : Nat} (h : i < n) :
    (List.replicate n a).getD i d = a := by
  induction n generalizing i with
  | zero => omega
  | succ n ih =>
    cases i with
    | zero => rfl
    | succ i => exact ih (by omega)

/-- A `deepCfg` search level entered with `m` levels below it: the cell
`13 - m` is pending (freshly collapsed by the parent's trial), everything
before it is collapsed, everything from `14 - m` on is still full.  The
call fails and maps the iteration counter through `TIter m`. -/
theorem deep_level : ∀ m : Nat, m ≤ 13 →
    ∀ fc : Nat, 7 * m + 11 ≤ fc →
    ∀ (cs : SState) (cw : Wave),
      cs.queue.data.length = 16 →
      cs.queue.front + 1 = cs.queue.back →
      cs.queue.back = 14 - m →
      cs.queue.data.getD cs.queue.front 0 = 13 - m →
      cw.length = 16 →
      (∀ i, i < 14 - m → popcount (cw.getD i 0) = 1) →
      (∀ i, 14 - m ≤ i → i < 16 → cw.getD i 0 = 3) →
      ∃ cs₃ cw₃, RunLoop fc deepCfg cs cw = some (false, cs₃, cw₃)
        ∧ cs₃.iterations = TIter m cs.iterations
        ∧ cs₃.queue.data.length = 16 := by
  intro m
  induction m with
  | zero =>
    intro _ fc hfc cs cw hqlen hfb hback hpend hwlen hlow hhi
    have hmask : cw.getD (cs.queue.data.getD cs.queue.front 0) 0 ≠ 0 := by
      rw [hpend]
      have hp := hlow (13 - 0) (by omega)
      intro h0
      rw [h0, popcount_zero] at hp
      omega
    have hcell14 : cs.queue.data.getD cs.queue.front 0 ≠ 14 := by
      rw [hpend]; omega
    have hprop : Propagate deepCfg (cs.queue.data.length + 1) cs cw
        = some (true,
            { cs with queue := ⟨cs.queue.data, cs.queue.front + 1, cs.queue.back⟩ },
            cw) := by
      rw [show cs.queue.data.length + 1 = 15 + 2 from by rw [hqlen]]
      exact propagate_pending 15 cs cw hfb hcell14 hmask
    obtain ⟨s₃, w₃, hrun, hits, hql⟩ :=
      deep_branch_common 14 1 (by omega) (fun x => x)
        (fun fc2 hfc2 => deep_level15 fc2 hfc2)
        fc (by omega) cs cw
        { cs with queue := ⟨cs.queue.data, cs.queue.front + 1, cs.queue.back⟩ }
        hqlen hprop hqlen hfb (hback.trans (by omega)) rfl hwlen
        (fun i hi => hlow i (by omega))
        (fun i hi h16 => hhi i (by omega) h16)
    refine ⟨s₃, w₃, hrun, ?_, hql⟩
    rw [hits, TIter]
  | succ m ih =>
    intro hm fc hfc cs cw hqlen hfb hback hpend hwlen hlow hhi
    have hmask : cw.getD (cs.queue.data.getD cs.queue.front 0) 0 ≠ 0 := by
      rw [hpend]
      have hp := hlow (13 - (m + 1)) (by omega)
      intro h0
      rw [h0, popcount_zero] at hp
      omega
    have hcell14 : cs.queue.data.getD cs.queue.front 0 ≠ 14 := by
      rw [hpend]; omega
    have hprop : Propagate deepCfg (cs.queue.data.length + 1) cs cw
        = some (true,
            { cs with queue := ⟨cs.queue.data, cs.queue.front + 1, cs.queue.back⟩ },
            cw) := by
      rw [show cs.queue.data.length + 1 = 15 + 2 from by rw [hqlen]]
      exact propagate_pending 15 cs cw hfb hcell14 hmask
    obtain ⟨s₃, w₃, hrun, hits, hql⟩ :=
      deep_branch_common (13 - m) (7 * m + 11) (by omega) (TIter m)
        (fun fc2 hfc2 cs2 cw2 h1 h2 h3 h4 h5 h6 h7 =>
          ih (by omega) fc2 (by omega) cs2 cw2 h1 h2
            (h3.trans (by omega)) h4 h5
            (fun i hi => h6 i (by omega))
            (fun i hi h16 => h7 i (by omega) h16))
        fc (by omega) cs cw
        { cs with queue := ⟨cs.queue.data, cs.queue.front + 1, cs.queue.back⟩ }
        hqlen hprop hqlen hfb (hback.trans (by omega)) rfl hwlen
        (fun i hi => hlow i (by omega))
        (fun i hi h16 => hhi i (by omega) h16)
    refine ⟨s₃, w₃, hrun, ?_, hql⟩
    rw [hits, TIter]

/-- Far from the bound, a `deepCfg` level below the bound runs its whole
binary subtree: `2^(m+1) - 1` completed bodies. -/
theorem TIter_free : ∀ m x : Nat, x + 2 ^ (m + 1) ≤ MaxIterations + 1 →
    TIter m x = x + 2 ^ (m + 1) - 1 := by
  have hM : MaxIterations = 16384 := rfl
  intro m
  induction m with
  | zero =>
    intro x hx
    rw [TIter, if_pos (by omega)]
    omega
  | succ m ih =>
    intro x hx
    have hpow : 2 ^ (m + 1 + 1) = 2 ^ (m + 1) + 2 ^ (m + 1) := by
      rw [pow_succ]; omega
    have hp1 : 0 < 2 ^ (m + 1) := Nat.pos_pow_of_pos _ (by omega)
    rw [TIter, if_pos (by omega)]
    rw [ih x (by omega)]
    rw [ih (x + 2 ^ (m + 1) - 1) (by omega)]
    omega

/-- Entered one short of the bound, a level completes its own body and
each of the `m` levels below completes exactly one more before their
entry checks start failing: the counter overshoots by the depth. -/
theorem TIter_edge : ∀ m : Nat, TIter m (MaxIterations - 1) = MaxIterations + m := by
  have hM : MaxIterations = 16384 := rfl
  intro m
  induction m with
  | zero =>
    rw [TIter, if_pos (by omega)]
    omega
  | succ m ih =>
    rw [TIter, if_pos (by omega)]
    rw [ih, TIter_ge (by omega)]
    omega

/-- C8 counterexample: on a 16-cell binary world whose only constraint
(`deepCfg`) makes the last two cells jointly unsatisfiable, a run from a
fresh state (counter 0, seed 0, nothing seeded by
`PropogateInitialValues`) fails with the shared iteration counter at
16 398 — exceeding `MaxIterations = 16384`, because each level of the
unwinding branch stack still completes (and counts) its current loop body
after the bound is first reached. -/
theorem C8_counterexample :
    ((RunLoop 200 deepCfg (initState (List.replicate 16 99) 0)
        (waveInit 16 8 2)).map (fun out => (out.1, out.2.1.iterations)))
      = some (false, 16398)
    ∧ 16384 < 16398
    ∧ MaxIterations = 16384
    ∧ PropogateInitialValues deepCfg (initState (List.replicate 16 99) 0)
        (waveInit 16 8 2)
      = (initState (List.replicate 16 99) 0, waveInit 16 8 2) := by
  refine ⟨?_, by omega, rfl, by decide⟩
  obtain ⟨s₃, w₃, hrun, hits, hql⟩ :=
    deep_branch_common 0 (7 * 13 + 11) (by omega) (TIter 13)
      (fun fc hfc cs cw h1 h2 h3 h4 h5 h6 h7 =>
        deep_level 13 (by omega) fc (by omega) cs cw h1 h2
          (h3.trans (by omega)) (h4.trans (by omega)) h5
          (fun i hi => h6 i (by omega))
          (fun i hi h16 => h7 i (by omega) h16))
      200 (by omega)
      (initState (List.replicate 16 99) 0) (waveInit 16 8 2)
      (initState (List.replicate 16 99) 0)
      rfl
      (propagate_empty deepCfg
        (initState (List.replicate 16 99) 0).queue.data.length
        (initState (List.replicate 16 99) 0) (waveInit 16 8 2) rfl)
      rfl rfl rfl rfl rfl
      (fun i hi => absurd hi (by omega))
      (fun i _ hi => getD_replicate (by omega))
  rw [hrun]
  show some (false, s₃.iterations) = some (false, 16398)
  rw [hits]
  have h1 : TIter 13 0 = 16383 := by
    have h := TIter_free 13 0 (by norm_num [MaxIterations])
    rw [h]
    norm_num
  have h2 : TIter 13 16383 = 16397 := by
    have h := TIter_edge 13
    rw [show MaxIterations - 1 = 16383 from rfl,
      show MaxIterations + 13 = 16397 from rfl] at h
    exact h
  have hz : (initState (List.replicate 16 99) 0).iterations = 0 := rfl
  rw [hz, if_pos (show 0 < MaxIterations from by norm_num [MaxIterations]), h1, h2]

/-- `Propagate` never touches the iteration counter. -/
theorem Propagate_iterations : ∀ (fuel : Nat) (cfg : Cfg) (s : SState) (w : Wave)
    (r : Bool) (s₃ : SState) (w₃ : Wave),
    Propagate cfg fuel s w = some (r, s₃, w₃) → s₃.iterations = s.iterations := by
  intro fuel
  induction fuel with
  | zero => intro cfg s w r s₃ w₃ h; exact absurd h (by rw [Propagate]; simp)
  | succ n ih =>
    intro cfg s w r s₃ w₃ h
    rw [Propagate] at h
    split at h
    · cases h; rfl
    · simp only [] at h
      split at h
      · cases h; rfl
      · exact (ih _ _ _ _ _ _ h).trans rfl

/-- Shared-counter bookkeeping of the mutual recursion, by induction on
fuel (which bounds the branch-nesting depth): the counter never
decreases; a completed call at `fuel` exceeds `max start MaxIterations`
by at most `fuel` (at most one completed loop body per nesting level);
and a `Branch`/`BranchLoop` entered with the counter already exhausted
returns it unchanged. -/
theorem iter_bound : ∀ fuel : Nat,
    (∀ (cfg : Cfg) (s : SState) (w : Wave) (r : Bool) (s₃ : SState) (w₃ : Wave),
      RunLoop fuel cfg s w = some (r, s₃, w₃) →
        s.iterations ≤ s₃.iterations
        ∧ s₃.iterations ≤ max s.iterations MaxIterations + fuel)
    ∧ (∀ (cfg : Cfg) (s : SState) (w : Wave) (r : Bool) (s₃ : SState) (w₃ : Wave),
      Branch fuel cfg s w = some (r, s₃, w₃) →
        s.iterations ≤ s₃.iterations
        ∧ s₃.iterations ≤ max s.iterations MaxIterations + fuel
        ∧ (MaxIterations ≤ s.iterations → s₃.iterations = s.iterations))
    ∧ (∀ (cfg : Cfg) (cell : Nat) (pvals : List Nat) (avail : Nat)
        (s : SState) (w : Wave) (r : Bool) (s₃ : SState) (w₃ : Wave)
        (tr : List Nat),
      BranchLoop fuel cfg cell pvals avail s w = some (r, s₃, w₃, tr) →
        s.iterations ≤ s₃.iterations
        ∧ s₃.iterations ≤ max s.iterations MaxIterations + fuel
        ∧ (MaxIterations ≤ s.iterations → s₃.iterations = s.iterations)) := by
  intro fuel
  induction fuel with
  | zero =>
    refine ⟨?_, ?_, ?_⟩
    · intro cfg s w r s₃ w₃ h; exact absurd h (by rw [RunLoop]; simp)
    · intro cfg s w r s₃ w₃ h; exact absurd h (by rw [Branch]; simp)
    · intro cfg cell pvals avail s w r s₃ w₃ tr h
      exact absurd h (by rw [BranchLoop]; simp)
  | succ n ih =>
    obtain ⟨ihR, ihB, ihL⟩ := ih
    refine ⟨?_, ?_, ?_⟩
    · -- RunLoop
      intro cfg s w r s₃ w₃ h
      rw [RunLoop] at h
      by_cases hx : s.iterations < MaxIterations
      · rw [if_pos hx] at h
        split at h
        · exact absurd h (by simp)
        · rename_i s₁ w₁ heq
          cases h
          have hp := Propagate_iterations _ _ _ _ _ _ _ heq
          exact ⟨by omega, by omega⟩
        · rename_i s₁ w₁ heq
          have hp := Propagate_iterations _ _ _ _ _ _ _ heq
          split at h
          · cases h
            exact ⟨by omega, by omega⟩
          · split at h
            · cases h
              exact ⟨by omega, by omega⟩
            · split at h
              · exact absurd h (by simp)
              · rename_i s₂ w₂ hbr
                cases h
                obtain ⟨b1, b2, b3⟩ := ihB _ _ _ _ _ _ hbr
                exact ⟨by omega, by omega⟩
              · rename_i s₂ w₂ hbr
                obtain ⟨b1, b2, b3⟩ := ihB _ _ _ _ _ _ hbr
                have e : ({ s₂ with iterations := s₂.iterations + 1 } : SState).iterations
                    = s₂.iterations + 1 := rfl
                obtain ⟨r1, r2⟩ := ihR _ _ _ _ _ _ h
                rw [e] at r1 r2
                rcases Nat.lt_or_ge s₂.iterations MaxIterations with hc | hc
                · exact ⟨by omega, by omega⟩
                · cases n with
                  | zero => exact absurd h (by rw [RunLoop]; simp)
                  | succ m =>
                    rw [RunLoop_exhausted (by rw [e]; omega)] at h
                    cases h
                    exact ⟨by rw [e]; omega, by rw [e]; omega⟩
      · rw [if_neg hx] at h
        cases h
        exact ⟨le_rfl, by omega⟩
    · -- Branch
      intro cfg s w r s₃ w₃ h
      rw [Branch] at h
      split at h
      · cases h
        exact ⟨le_rfl, by omega, fun _ => rfl⟩
      · split at h
        · exact absurd h (by simp)
        · rename_i r₁ s₁ w₁ tr₁ hbl
          cases h
          obtain ⟨l1, l2, l3⟩ := ihL _ _ _ _ _ _ _ _ _ _ hbl
          exact ⟨l1, by omega, l3⟩
    · -- BranchLoop
      intro cfg cell pvals avail s w r s₃ w₃ tr h
      rw [BranchLoop] at h
      by_cases ha : avail = 0
      · rw [if_pos ha] at h
        cases h
        exact ⟨le_rfl, by omega, fun _ => rfl⟩
      · rw [if_neg ha] at h
        split at h
        · exact absurd h (by simp)
        · rename_i s₁ w₁ hrun
          cases h
          obtain ⟨r1, r2⟩ := ihR _ _ _ _ _ _ hrun
          have e2 : (trialState cfg cell avail s w).iterations = s.iterations := rfl
          have e1 : (restoreFrames s s₁).iterations = s₁.iterations := rfl
          rw [e2] at r1 r2
          refine ⟨by rw [e1]; omega, by rw [e1]; omega, ?_⟩
          · intro hge
            cases n with
            | zero => exact absurd hrun (by rw [RunLoop]; simp)
            | succ m =>
              rw [RunLoop_exhausted (by rw [e2]; omega)] at hrun
              exact absurd hrun (by simp)
        · rename_i s₁ w₁ hrun
          split at h
          · exact absurd h (by simp)
          · rename_i r₂ s₂ w₂ tr₂ hbl
            cases h
            obtain ⟨r1, r2⟩ := ihR _ _ _ _ _ _ hrun
            obtain ⟨l1, l2, l3⟩ := ihL _ _ _ _ _ _ _ _ _ _ hbl
            have e2 : (trialState cfg cell avail s w).iterations = s.iterations := rfl
            have e1 : (restoreFrames s s₁).iterations = s₁.iterations := rfl
            rw [e2] at r1 r2
            rw [e1] at l1 l2 l3
            refine ⟨by omega, ?_, ?_⟩
            · rcases Nat.lt_or_ge s₁.iterations MaxIterations with hc | hc
              · omega
              · have := l3 (by omega)
                omega
            · intro hge
              cases n with
              | zero => exact absurd hrun (by rw [RunLoop]; simp)
              | succ m =>
                rw [RunLoop_exhausted (by rw [e2]; omega)] at hrun
                have hseq : s₁.iterations = s.iterations := by
                  cases hrun
                  rfl
                have := l3 (by omega)
                omega

/-- C8.  What the iteration bound really guarantees: a `RunLoop` entered
with the shared counter at or beyond `MaxIterations = 16384` fails
immediately with state and wave untouched (so no further loop body runs),
the counter never decreases, and a completed call leaves the counter at
most `fuel` — the branch-nesting depth of the embedding — beyond
`max start MaxIterations`.  The counter is *not* capped at 16384 exactly:
each level of an unwinding branch stack still completes and counts its
current body (see the counterexample, which ends at 16398). -/
theorem C8_iteration_gate (cfg : Cfg) (fuel : Nat) (s : SState) (w : Wave)
    (r : Bool) (s₃ : SState) (w₃ : Wave)
    (h : RunLoop fuel cfg s w = some (r, s₃, w₃)) :
    MaxIterations = 16384
    ∧ (MaxIterations ≤ s.iterations → r = false ∧ s₃ = s ∧ w₃ = w)
    ∧ s.iterations ≤ s₃.iterations
    ∧ s₃.iterations ≤ max s.iterations MaxIterations + fuel := by
  obtain ⟨hb1, hb2⟩ := (iter_bound fuel).1 cfg s w r s₃ w₃ h
  refine ⟨rfl, ?_, hb1, hb2⟩
  intro hge
  cases fuel with
  | zero => exact absurd h (by rw [RunLoop]; simp)
  | succ m =>
    rw [RunLoop_exhausted (by omega)] at h
    cases h
    exact ⟨rfl, rfl, rfl⟩

/-- A minimal configuration used to witness the iteration gate. -/
def flatCfg : Cfg := ⟨8, 1, [5], fun _ _ _ _ => []⟩

/-- A solver state whose shared iteration counter is already exhausted. -/
def hotState : SState := ⟨[7], ⟨[0], 0, 0⟩, 3, Arena.init, 16384⟩

/-- Witness for C8: entering `RunLoop` with the counter at the bound
returns failure at once with everything untouched. -/
theorem C8_witness :
    MaxIterations = 16384
    ∧ (MaxIterations ≤ hotState.iterations
        → false = false ∧ hotState = hotState ∧ ([1] : Wave) = [1])
    ∧ hotState.iterations ≤ hotState.iterations
    ∧ hotState.iterations ≤ max hotState.iterations MaxIterations + 1 :=
  C8_iteration_gate flatCfg 1 hotState [1] false hotState [1] rfl

end WFC
